import Mathlib

/-!
Open1722 eBPF benchmarking: flow correlation and arrival reduction

A shallow embedding of `internal/utils/utils.go` (`sumArray`, `LogData`,
`CalculateInterarrivalAndJitter`), `internal/utils/types.go` (`EventLog`,
`EventTrace`) and of the event handler of `main.go`, with the text it derives
from the name fields, followed by theorems about them.

Conventions of the embedding.

* `uint32` keys and `uint64` timestamps are natural numbers; a `uint64`
  subtraction is `sub64`, taken modulo `2 ^ 64`.  Theorems that speak of
  timestamps assume them below `2 ^ 64` where the value matters.
* A Go `string` is a sequence of bytes.  It is embedded as a `String`, one
  character per byte; `strings.Contains` is then containment of one character
  sequence in another.
* A Go `map[K]V` is a partial function `K → Option V`; reading a key yields the
  zero value when the key is absent, as in Go.
* A `float64` that is never negative is embedded as the rational number it
  denotes; every arithmetic operation rounds its exact result to the nearest
  value with a 53 bit significand, ties to even (IEEE 754 binary64).
-/

namespace Open1722

/-! ## Strings -/

/-- Whether `p` occurs in `s` as a contiguous block. -/
def occursIn (p : List Char) : List Char → Bool
  | [] => p.isEmpty
  | c :: s => p.isPrefixOf (c :: s) || occursIn p s

/-- Go `strings.Contains(s, substr)`. -/
def Contains (s substr : String) : Bool :=
  occursIn substr.data s.data

/-! ## `types.go`: `EventLog` -/

/-- Go `type EventLog struct` of `types.go`. -/
structure EventLog where
  Pid : Nat
  Dev : String
  TimestampEnterRead : Nat
  TimestampExitRead : Nat
  TimestampEnterSendto : Nat
  TimestampExitSendto : Nat
  TimestampEnterCanToAvtp : Nat
  TimestampExitCanToAvtp : Nat
  TimestampEnterAvtpToCan : Nat
  TimestampExitAvtpToCan : Nat
  TimeReadingCANBus : Nat
  TimeWriting : Nat
  TimeCanToAvtp : Nat
  TimeAvtpToCan : Nat
  deriving DecidableEq, Repr

/-- The zero value of `EventLog`. -/
def EventLog.zero : EventLog :=
  { Pid := 0, Dev := "",
    TimestampEnterRead := 0, TimestampExitRead := 0,
    TimestampEnterSendto := 0, TimestampExitSendto := 0,
    TimestampEnterCanToAvtp := 0, TimestampExitCanToAvtp := 0,
    TimestampEnterAvtpToCan := 0, TimestampExitAvtpToCan := 0,
    TimeReadingCANBus := 0, TimeWriting := 0, TimeCanToAvtp := 0, TimeAvtpToCan := 0 }

/-- A composite literal `EventLog{Pid: pid, Dev: dev, ...}` that names the two
identity fields and the eight timestamps; the four durations, which the
literals of `LogData` leave out, are zero. -/
def EventLog.lit (pid : Nat) (dev : String) (enterRead exitRead enterSendto exitSendto
    enterCanToAvtp exitCanToAvtp enterAvtpToCan exitAvtpToCan : Nat) : EventLog :=
  { Pid := pid, Dev := dev,
    TimestampEnterRead := enterRead, TimestampExitRead := exitRead,
    TimestampEnterSendto := enterSendto, TimestampExitSendto := exitSendto,
    TimestampEnterCanToAvtp := enterCanToAvtp, TimestampExitCanToAvtp := exitCanToAvtp,
    TimestampEnterAvtpToCan := enterAvtpToCan, TimestampExitAvtpToCan := exitAvtpToCan,
    TimeReadingCANBus := 0, TimeWriting := 0, TimeCanToAvtp := 0, TimeAvtpToCan := 0 }

/-! ## Machine arithmetic and maps -/

/-- Subtraction of two `uint64` values: the difference modulo `2 ^ 64`. -/
def sub64 (a b : Nat) : Nat :=
  (a + 2 ^ 64 - b) % 2 ^ 64

/-- Go `map[uint32]EventLog`. -/
abbrev LogMap := Nat → Option EventLog

/-- The map `make(map[uint32]EventLog)`. -/
def LogMap.empty : LogMap := fun _ => none

/-- The index expression `m[k]`: the zero value when `k` is absent. -/
def LogMap.get (m : LogMap) (k : Nat) : EventLog :=
  (m k).getD EventLog.zero

/-- The assignment `m[k] = v`. -/
def LogMap.set (m : LogMap) (k : Nat) (v : EventLog) : LogMap :=
  fun j => if j = k then some v else m j

/-! ## `utils.go`: `LogData` -/

/-- Condition of lines 103 and 212. -/
def isEnterRead (funcName : String) : Bool :=
  Contains funcName "sys_enter_read" || Contains funcName "acfcan_tx"

/-- Condition of lines 108 and 226. -/
def isExitRead (funcName : String) : Bool :=
  Contains funcName "sys_exit_read" || Contains funcName "enter_forward_can_frame"

/-- Condition of lines 116 and 240. -/
def isEnterSendto (funcName : String) : Bool :=
  Contains funcName "sys_enter_sendto" || Contains funcName "enter_forward_can_frame"

/-- Condition of lines 121 and 254. -/
def isExitSendto (funcName : String) : Bool :=
  Contains funcName "sys_exit_sendto" || Contains funcName "exit_forward_can_frame"

/-- Condition of lines 129 and 156. -/
def isEnterCanToAvtp (funcName : String) : Bool :=
  Contains funcName "can_to_avtp_enter"

/-- Condition of lines 134 and 170. -/
def isExitCanToAvtp (funcName : String) : Bool :=
  Contains funcName "can_to_avtp_exit"

/-- Condition of lines 142 and 184. -/
def isEnterAvtpToCan (funcName : String) : Bool :=
  Contains funcName "avtp_to_can_enter"

/-- Condition of lines 147 and 198. -/
def isExitAvtpToCan (funcName : String) : Bool :=
  Contains funcName "avtp_to_can_exit"

/-- Go `LogData(logVariable, uid, pid, ts, funcName, dev)`; the map the pointer
refers to afterwards.  The tests are consecutive `if` statements, none of them
an `else if`, in both branches. -/
def LogData (logVariable : LogMap) (uid pid ts : Nat) (funcName dev : String) : LogMap :=
  match logVariable uid with
  | some _ =>
    let m : LogMap := logVariable
    let m : LogMap :=
      if isEnterRead funcName then
        let eventLog : EventLog := m.get uid
        let eventLog : EventLog := { eventLog with TimestampEnterRead := ts }
        m.set uid eventLog
      else m
    let m : LogMap :=
      if isExitRead funcName then
        let eventLog : EventLog := m.get uid
        let eventLog : EventLog := { eventLog with TimestampExitRead := ts }
        let eventLog : EventLog :=
          if eventLog.TimestampEnterRead ≠ 0 then
            { eventLog with TimeReadingCANBus := sub64 ts eventLog.TimestampEnterRead }
          else eventLog
        m.set uid eventLog
      else m
    let m : LogMap :=
      if isEnterSendto funcName then
        let eventLog : EventLog := m.get uid
        let eventLog : EventLog := { eventLog with TimestampEnterSendto := ts }
        m.set uid eventLog
      else m
    let m : LogMap :=
      if isExitSendto funcName then
        let eventLog : EventLog := m.get uid
        let eventLog : EventLog := { eventLog with TimestampExitSendto := ts }
        let eventLog : EventLog :=
          if eventLog.TimestampEnterSendto ≠ 0 then
            { eventLog with TimeWriting := sub64 ts eventLog.TimestampEnterSendto }
          else eventLog
        m.set uid eventLog
      else m
    let m : LogMap :=
      if isEnterCanToAvtp funcName then
        let eventlog : EventLog := m.get uid
        let eventlog : EventLog := { eventlog with TimestampEnterCanToAvtp := ts }
        m.set uid eventlog
      else m
    let m : LogMap :=
      if isExitCanToAvtp funcName then
        let eventlog : EventLog := m.get uid
        let eventlog : EventLog := { eventlog with TimestampExitCanToAvtp := ts }
        let eventlog : EventLog :=
          if eventlog.TimestampEnterCanToAvtp ≠ 0 then
            { eventlog with TimeCanToAvtp := sub64 ts eventlog.TimestampEnterCanToAvtp }
          else eventlog
        m.set uid eventlog
      else m
    let m : LogMap :=
      if isEnterAvtpToCan funcName then
        let eventlog : EventLog := m.get uid
        let eventlog : EventLog := { eventlog with TimestampEnterAvtpToCan := ts }
        m.set uid eventlog
      else m
    let m : LogMap :=
      if isExitAvtpToCan funcName then
        let eventlog : EventLog := m.get uid
        let eventlog : EventLog := { eventlog with TimestampExitAvtpToCan := ts }
        let eventlog : EventLog :=
          if eventlog.TimestampEnterAvtpToCan ≠ 0 then
            { eventlog with TimeAvtpToCan := sub64 ts eventlog.TimestampEnterAvtpToCan }
          else eventlog
        m.set uid eventlog
      else m
    m
  | none =>
    let m : LogMap := logVariable
    let m : LogMap :=
      if isEnterCanToAvtp funcName then m.set uid (EventLog.lit pid dev 0 0 0 0 ts 0 0 0) else m
    let m : LogMap :=
      if isExitCanToAvtp funcName then m.set uid (EventLog.lit pid dev 0 0 0 0 0 ts 0 0) else m
    let m : LogMap :=
      if isEnterAvtpToCan funcName then m.set uid (EventLog.lit pid dev 0 0 0 0 0 0 ts 0) else m
    let m : LogMap :=
      if isExitAvtpToCan funcName then m.set uid (EventLog.lit pid dev 0 0 0 0 0 0 0 ts) else m
    let m : LogMap :=
      if isEnterRead funcName then m.set uid (EventLog.lit pid dev ts 0 0 0 0 0 0 0) else m
    let m : LogMap :=
      if isExitRead funcName then m.set uid (EventLog.lit pid dev 0 ts 0 0 0 0 0 0) else m
    let m : LogMap :=
      if isEnterSendto funcName then m.set uid (EventLog.lit pid dev 0 0 ts 0 0 0 0 0) else m
    let m : LogMap :=
      if isExitSendto funcName then m.set uid (EventLog.lit pid dev 0 0 0 ts 0 0 0 0) else m
    m

/-! ## The four stages -/

/-- The four stages whose latency `EventLog` records. -/
inductive Stage where
  | read
  | sendto
  | canToAvtp
  | avtpToCan
  deriving DecidableEq, Repr

/-- The enter timestamp of a stage. -/
def Stage.enterTs : Stage → EventLog → Nat
  | .read, r => r.TimestampEnterRead
  | .sendto, r => r.TimestampEnterSendto
  | .canToAvtp, r => r.TimestampEnterCanToAvtp
  | .avtpToCan, r => r.TimestampEnterAvtpToCan

/-- The exit timestamp of a stage. -/
def Stage.exitTs : Stage → EventLog → Nat
  | .read, r => r.TimestampExitRead
  | .sendto, r => r.TimestampExitSendto
  | .canToAvtp, r => r.TimestampExitCanToAvtp
  | .avtpToCan, r => r.TimestampExitAvtpToCan

/-- The duration of a stage. -/
def Stage.duration : Stage → EventLog → Nat
  | .read, r => r.TimeReadingCANBus
  | .sendto, r => r.TimeWriting
  | .canToAvtp, r => r.TimeCanToAvtp
  | .avtpToCan, r => r.TimeAvtpToCan

/-- The test `LogData` makes for the enter marker of a stage. -/
def Stage.isEnter : Stage → String → Bool
  | .read => isEnterRead
  | .sendto => isEnterSendto
  | .canToAvtp => isEnterCanToAvtp
  | .avtpToCan => isEnterAvtpToCan

/-- The test `LogData` makes for the exit marker of a stage. -/
def Stage.isExit : Stage → String → Bool
  | .read => isExitRead
  | .sendto => isExitSendto
  | .canToAvtp => isExitCanToAvtp
  | .avtpToCan => isExitAvtpToCan

/-- The canonical enter marker of a stage. -/
def Stage.enterMarker : Stage → String
  | .read => "sys_enter_read"
  | .sendto => "sys_enter_sendto"
  | .canToAvtp => "can_to_avtp_enter"
  | .avtpToCan => "avtp_to_can_enter"

/-- The canonical exit marker of a stage. -/
def Stage.exitMarker : Stage → String
  | .read => "sys_exit_read"
  | .sendto => "sys_exit_sendto"
  | .canToAvtp => "can_to_avtp_exit"
  | .avtpToCan => "avtp_to_can_exit"

/-! ## Record-level view of `LogData` -/

/-- The assignment to the enter timestamp of a stage (lines 105, 118, 131, 144). -/
def setEnter (s : Stage) (ts : Nat) (r : EventLog) : EventLog :=
  match s with
  | .read => { r with TimestampEnterRead := ts }
  | .sendto => { r with TimestampEnterSendto := ts }
  | .canToAvtp => { r with TimestampEnterCanToAvtp := ts }
  | .avtpToCan => { r with TimestampEnterAvtpToCan := ts }

/-- The assignment to the exit timestamp of a stage followed by the guarded
assignment to its duration (lines 110 to 113, 123 to 126, 136 to 139, 149 to 152). -/
def setExit (s : Stage) (ts : Nat) (r : EventLog) : EventLog :=
  match s with
  | .read =>
    let e : EventLog := { r with TimestampExitRead := ts }
    if e.TimestampEnterRead ≠ 0 then
      { e with TimeReadingCANBus := sub64 ts e.TimestampEnterRead }
    else e
  | .sendto =>
    let e : EventLog := { r with TimestampExitSendto := ts }
    if e.TimestampEnterSendto ≠ 0 then
      { e with TimeWriting := sub64 ts e.TimestampEnterSendto }
    else e
  | .canToAvtp =>
    let e : EventLog := { r with TimestampExitCanToAvtp := ts }
    if e.TimestampEnterCanToAvtp ≠ 0 then
      { e with TimeCanToAvtp := sub64 ts e.TimestampEnterCanToAvtp }
    else e
  | .avtpToCan =>
    let e : EventLog := { r with TimestampExitAvtpToCan := ts }
    if e.TimestampEnterAvtpToCan ≠ 0 then
      { e with TimeAvtpToCan := sub64 ts e.TimestampEnterAvtpToCan }
    else e

/-- One `if` statement of the branch for a present key that tests an enter marker. -/
def stepEnter (s : Stage) (funcName : String) (ts : Nat) (r : EventLog) : EventLog :=
  if s.isEnter funcName then setEnter s ts r else r

/-- One `if` statement of the branch for a present key that tests an exit marker. -/
def stepExit (s : Stage) (funcName : String) (ts : Nat) (r : EventLog) : EventLog :=
  if s.isExit funcName then setExit s ts r else r

/-- What the branch of `LogData` for a present key does to the record: the
eight `if` statements in the order of the source. -/
def updateRecord (r : EventLog) (ts : Nat) (funcName : String) : EventLog :=
  stepExit .avtpToCan funcName ts (stepEnter .avtpToCan funcName ts
    (stepExit .canToAvtp funcName ts (stepEnter .canToAvtp funcName ts
      (stepExit .sendto funcName ts (stepEnter .sendto funcName ts
        (stepExit .read funcName ts (stepEnter .read funcName ts r)))))))

/-- The record, if any, that the branch of `LogData` for an absent key leaves
under the key: the literal of the last test that holds. -/
def freshRecord (pid ts : Nat) (funcName dev : String) : Option EventLog :=
  if isExitSendto funcName then some (EventLog.lit pid dev 0 0 0 ts 0 0 0 0)
  else if isEnterSendto funcName then some (EventLog.lit pid dev 0 0 ts 0 0 0 0 0)
  else if isExitRead funcName then some (EventLog.lit pid dev 0 ts 0 0 0 0 0 0)
  else if isEnterRead funcName then some (EventLog.lit pid dev ts 0 0 0 0 0 0 0)
  else if isExitAvtpToCan funcName then some (EventLog.lit pid dev 0 0 0 0 0 0 0 ts)
  else if isEnterAvtpToCan funcName then some (EventLog.lit pid dev 0 0 0 0 0 0 ts 0)
  else if isExitCanToAvtp funcName then some (EventLog.lit pid dev 0 0 0 0 0 ts 0 0)
  else if isEnterCanToAvtp funcName then some (EventLog.lit pid dev 0 0 0 0 ts 0 0 0)
  else none

/-- The transition of one key's entry under `LogData`. -/
def stepRecord (o : Option EventLog) (pid ts : Nat) (funcName dev : String) : Option EventLog :=
  match o with
  | some r => some (updateRecord r ts funcName)
  | none => freshRecord pid ts funcName dev

/-! ## `float64` -/

/-- The number of binary digits of `n`, computed with `fuel` halvings at most. -/
def bitLenAux : Nat → Nat → Nat
  | 0, _ => 0
  | fuel + 1, n => if n = 0 then 0 else bitLenAux fuel (n / 2) + 1

/-- The number of binary digits of `n`: `2 ^ (bitLen n - 1) ≤ n < 2 ^ bitLen n`
for a positive `n`. -/
def bitLen (n : Nat) : Nat :=
  bitLenAux n n

/-- The product `n * 2 ^ k` for `k ≥ 0`, and `n` for `k < 0`. -/
def scale2 (n : Nat) (k : Int) : Nat :=
  n * 2 ^ k.toNat

/-- The significand `m` and the exponent `k` of the `float64` nearest to `a / b`,
for positive `a` and `b`: `k` is such that `2 ^ 52 ≤ a / b / 2 ^ k < 2 ^ 53`, and
`m` is `a / b / 2 ^ k` rounded to an integer, a tie going to the even one. -/
def round53Parts (a b : Nat) : Nat × Int :=
  let l0 : Int := (bitLen a : Int) - (bitLen b : Int)
  let l : Int := if scale2 b l0 ≤ scale2 a (-l0) then l0 else l0 - 1
  let k : Int := l - 52
  let n := scale2 a (-k)
  let d := scale2 b k
  let q := n / d
  let r := n % d
  let m := if 2 * r < d then q else if d < 2 * r then q + 1 else if q % 2 = 0 then q else q + 1
  (m, k)

/-- The `float64` nearest to `a / b`, ties to even, as a rational number.
Exponent range is not modelled: the values that occur in
`CalculateInterarrivalAndJitter` are zero or lie between `2 ^ (-63)` and
`2 ^ 128`. -/
def round53 (a b : Nat) : ℚ :=
  if a = 0 then 0 else ((round53Parts a b).1 : ℚ) * (2 : ℚ) ^ (round53Parts a b).2

/-- The `float64` nearest to a rational number that is not negative: the
rounding every `float64` conversion and operation applies to its exact result. -/
def f64 (q : ℚ) : ℚ :=
  round53 q.num.toNat q.den

/-! ## `utils.go`: `CalculateInterarrivalAndJitter` -/

/-- The three results of `CalculateInterarrivalAndJitter`; a `nil` slice and a
`nil` error are `none`. -/
structure Reduced where
  interarrivals : Option (List Nat)
  jitter : ℚ
  err : Option String

/-- The loop of lines 290 to 299 over the adjacent pairs: `none` when it
returns early because a timestamp is below its predecessor, the interarrival
times otherwise. -/
def interarrivalLoop : List Nat → Option (List Nat)
  | prev :: current :: rest =>
    if current < prev then none
    else (interarrivalLoop (current :: rest)).map (fun d => sub64 current prev :: d)
  | _ => some []

/-- The loop of lines 305 to 315 over the adjacent pairs of interarrival times,
from the value `sum` has on entry. -/
def jitterLoop : List Nat → ℚ → ℚ
  | prev :: current :: rest, sum =>
    if current > prev then
      jitterLoop (current :: rest) (f64 (sum + f64 ((sub64 current prev : Nat) : ℚ)))
    else
      jitterLoop (current :: rest) (f64 (sum + f64 ((sub64 prev current : Nat) : ℚ)))
  | _, sum => sum

/-- Go `CalculateInterarrivalAndJitter(timestamps)`. -/
def CalculateInterarrivalAndJitter (timestamps : List Nat) : Reduced :=
  if timestamps.length < 2 then
    { interarrivals := none, jitter := 0, err := some "at least two timestamps required" }
  else
    match interarrivalLoop timestamps with
    | none =>
      { interarrivals := none, jitter := 0,
        err := some "timestamps must be in non-decreasing order" }
    | some interarrivals =>
      let jitter : ℚ :=
        if interarrivals.length ≥ 2 then
          let sum : ℚ := jitterLoop interarrivals 0
          f64 (sum / f64 ((interarrivals.length - 1 : Nat) : ℚ))
        else 0
      { interarrivals := some interarrivals, jitter := jitter, err := none }

/-- The sum of the absolute differences of adjacent elements, in exact
arithmetic: the quantity the loop of lines 305 to 315 accumulates in `float64`. -/
def absDiffSum : List Nat → Nat
  | prev :: current :: rest =>
    (if current > prev then current - prev else prev - current) + absDiffSum (current :: rest)
  | _ => 0

/-! ## Sequences of `LogData` calls -/

/-- The arguments of one call of `LogData`, the map apart. -/
structure Call where
  uid : Nat
  pid : Nat
  ts : Nat
  funcName : String
  dev : String
  deriving DecidableEq, Repr

/-- One call of `LogData` on a map. -/
def Call.apply (m : LogMap) (c : Call) : LogMap :=
  LogData m c.uid c.pid c.ts c.funcName c.dev

/-- The map after a sequence of calls of `LogData`, in order, starting from `m`. -/
def applyCalls (m : LogMap) (cs : List Call) : LogMap :=
  cs.foldl Call.apply m

/-- The markers that `LogData` tests as the enter marker of a stage, each with
its stage. -/
def enterMarkers : List (String × Stage) :=
  [("sys_enter_read", .read), ("acfcan_tx", .read),
   ("sys_enter_sendto", .sendto), ("enter_forward_can_frame", .sendto),
   ("can_to_avtp_enter", .canToAvtp), ("avtp_to_can_enter", .avtpToCan)]

/-- The markers that `LogData` tests as the exit marker of a stage, each with
its stage. -/
def exitMarkers : List (String × Stage) :=
  [("sys_exit_read", .read), ("enter_forward_can_frame", .read),
   ("sys_exit_sendto", .sendto), ("exit_forward_can_frame", .sendto),
   ("can_to_avtp_exit", .canToAvtp), ("avtp_to_can_exit", .avtpToCan)]

/-- The exit markers that are not also the enter marker of another stage. -/
def plainExitMarkers : List (String × Stage) :=
  [("sys_exit_read", .read),
   ("sys_exit_sendto", .sendto), ("exit_forward_can_frame", .sendto),
   ("can_to_avtp_exit", .canToAvtp), ("avtp_to_can_exit", .avtpToCan)]

/-! ## `main.go`: the handler of decoded pipeline events -/

/-- A decoded pipeline event as the handler passes it on: the fields of
`EventTrace`, the two name fields converted to text. -/
structure PipelineEvent where
  Timestamp : Nat
  Pid : Nat
  Uid : Nat
  functionStr : String
  devStr : String
  deriving DecidableEq, Repr

/-- Go `map[string]map[uint32]utils.EventLog`; an absent key reads as `nil`. -/
abbrev TraceDataMap := String → Option LogMap

/-- The assignment `traceDataMap[devStr] = value`. -/
def TraceDataMap.set (t : TraceDataMap) (d : String) (v : LogMap) : TraceDataMap :=
  fun j => if j = d then some v else t j

/-- The body of `case data := <-cRingBuf` of `main.go` between `Lock` and
`Unlock` (lines 247 to 259). -/
def handleEvent (traceDataMap : TraceDataMap) (parsedEvent : PipelineEvent) : TraceDataMap :=
  let devStr := parsedEvent.devStr
  let t : TraceDataMap :=
    if (traceDataMap devStr).isNone then traceDataMap.set devStr LogMap.empty
    else traceDataMap
  match t devStr with
  | some value =>
    t.set devStr (LogData value parsedEvent.Uid parsedEvent.Pid parsedEvent.Timestamp
      parsedEvent.functionStr devStr)
  | none =>
    t.set devStr (LogData LogMap.empty parsedEvent.Uid parsedEvent.Pid parsedEvent.Timestamp
      parsedEvent.functionStr devStr)

/-- The store after a sequence of events, starting from
`make(map[string]map[uint32]utils.EventLog)`. -/
def runEvents (es : List PipelineEvent) : TraceDataMap :=
  es.foldl handleEvent (fun _ => none)

/-- The record stored under device `d` and uid `u`, if any. -/
def recordAt (t : TraceDataMap) (d : String) (u : Nat) : Option EventLog :=
  match t d with
  | some m => m u
  | none => none

/-- Whether an event belongs to device `d` and uid `u`. -/
def PipelineEvent.isFor (d : String) (u : Nat) (e : PipelineEvent) : Bool :=
  decide (e.devStr = d) && decide (e.Uid = u)

/-- The transition of one flow's entry under one event. -/
def stepEvent (o : Option EventLog) (e : PipelineEvent) : Option EventLog :=
  stepRecord o e.Pid e.Timestamp e.functionStr e.devStr

/-! ## `utils.go`: `sumArray` -/

/-- Go `sumArray(arr)`: the `uint64` sum, each addition taken modulo `2 ^ 64`. -/
def sumArray (arr : List Nat) : Nat :=
  arr.foldl (fun sum value => (sum + value) % 2 ^ 64) 0

/-! ## `types.go` and `main.go`: `EventTrace` and the text of its name fields -/

/-- Go `type EventTrace struct` of `types.go`; the two `[32]byte` fields are
sequences of bytes, one character per byte. -/
structure EventTrace where
  Timestamp : Nat
  Pid : Nat
  Uid : Nat
  Function : List Char
  Dev : List Char
  deriving DecidableEq, Repr

/-- The zero byte. -/
def zeroByte : Char := Char.ofNat 0

/-- Go `strings.TrimRight(s, cutset)`: `s` without the characters of `cutset`
it ends in.  For a cutset of one byte below 128, the case of `main.go`, Go
removes bytes from the end of `s` while the last byte is that byte. -/
def TrimRight (s cutset : String) : String :=
  String.mk (s.data.rdropWhile (fun c => cutset.data.contains c))

/-- The text `main.go` derives from a name field (lines 241 and 242, 244 and
245, 262 and 263): `string(field[:])` followed by `strings.TrimRight` with the
cutset of the zero byte. -/
def nameText (field : List Char) : String :=
  TrimRight (String.mk field) "\x00"

/-- The event the handler passes to `LogData` for a parsed `EventTrace`. -/
def EventTrace.toPipelineEvent (e : EventTrace) : PipelineEvent :=
  { Timestamp := e.Timestamp, Pid := e.Pid, Uid := e.Uid,
    functionStr := nameText e.Function, devStr := nameText e.Dev }

/-! # Theorems -/

/-! ## Maps and the record-level view -/

theorem LogMap.set_apply (m : LogMap) (k : Nat) (v : EventLog) (j : Nat) :
    m.set k v j = if j = k then some v else m j := rfl

theorem LogMap.get_set_self (m : LogMap) (k : Nat) (v : EventLog) :
    (m.set k v).get k = v := by
  simp [LogMap.get, LogMap.set]

theorem LogMap.set_set (m : LogMap) (k : Nat) (v w : EventLog) :
    (m.set k v).set k w = m.set k w := by
  funext j
  by_cases h : j = k <;> simp [LogMap.set, h]

theorem LogMap.get_of_some {m : LogMap} {k : Nat} {r : EventLog} (h : m k = some r) :
    m.get k = r := by
  simp [LogMap.get, h]

theorem LogMap.set_self {m : LogMap} {k : Nat} {r : EventLog} (h : m k = some r) :
    m.set k r = m := by
  funext j
  by_cases hj : j = k <;> simp [LogMap.set, hj, h]

theorem LogMap.ite_set (c : Prop) [Decidable c] (m : LogMap) (k : Nat) (a b : EventLog) :
    (if c then m.set k a else m.set k b) = m.set k (if c then a else b) := by
  split <;> rfl

theorem LogData_of_some {m : LogMap} {uid : Nat} {r : EventLog} (h : m uid = some r)
    (pid ts : Nat) (funcName dev : String) :
    LogData m uid pid ts funcName dev = m.set uid (updateRecord r ts funcName) := by
  obtain ⟨m', rfl⟩ : ∃ m' : LogMap, m = m'.set uid r := ⟨m, (LogMap.set_self h).symm⟩
  unfold LogData
  rw [h]
  simp only [LogMap.set_set, LogMap.get_set_self, LogMap.ite_set]
  rfl

theorem LogData_of_none {m : LogMap} {uid : Nat} (h : m uid = none)
    (pid ts : Nat) (funcName dev : String) :
    LogData m uid pid ts funcName dev =
      match freshRecord pid ts funcName dev with
      | some r => m.set uid r
      | none => m := by
  unfold LogData freshRecord
  rw [h]
  cases isEnterRead funcName <;> cases isExitRead funcName <;> cases isEnterSendto funcName <;>
  cases isExitSendto funcName <;> cases isEnterCanToAvtp funcName <;>
  cases isExitCanToAvtp funcName <;> cases isEnterAvtpToCan funcName <;>
  cases isExitAvtpToCan funcName <;>
  simp [LogMap.set_set]

/-! ## Markers of the vocabulary

The value of each of the eight tests of `LogData` on each marker the tests name. -/

theorem tests_sys_enter_read :
    isEnterRead "sys_enter_read" = true ∧ isExitRead "sys_enter_read" = false ∧
    isEnterSendto "sys_enter_read" = false ∧ isExitSendto "sys_enter_read" = false ∧
    isEnterCanToAvtp "sys_enter_read" = false ∧ isExitCanToAvtp "sys_enter_read" = false ∧
    isEnterAvtpToCan "sys_enter_read" = false ∧ isExitAvtpToCan "sys_enter_read" = false := by
  decide

theorem tests_acfcan_tx :
    isEnterRead "acfcan_tx" = true ∧ isExitRead "acfcan_tx" = false ∧
    isEnterSendto "acfcan_tx" = false ∧ isExitSendto "acfcan_tx" = false ∧
    isEnterCanToAvtp "acfcan_tx" = false ∧ isExitCanToAvtp "acfcan_tx" = false ∧
    isEnterAvtpToCan "acfcan_tx" = false ∧ isExitAvtpToCan "acfcan_tx" = false := by
  decide

theorem tests_sys_exit_read :
    isEnterRead "sys_exit_read" = false ∧ isExitRead "sys_exit_read" = true ∧
    isEnterSendto "sys_exit_read" = false ∧ isExitSendto "sys_exit_read" = false ∧
    isEnterCanToAvtp "sys_exit_read" = false ∧ isExitCanToAvtp "sys_exit_read" = false ∧
    isEnterAvtpToCan "sys_exit_read" = false ∧ isExitAvtpToCan "sys_exit_read" = false := by
  decide

theorem tests_enter_forward_can_frame :
    isEnterRead "enter_forward_can_frame" = false ∧ isExitRead "enter_forward_can_frame" = true ∧
    isEnterSendto "enter_forward_can_frame" = true ∧ isExitSendto "enter_forward_can_frame" = false ∧
    isEnterCanToAvtp "enter_forward_can_frame" = false ∧ isExitCanToAvtp "enter_forward_can_frame" = false ∧
    isEnterAvtpToCan "enter_forward_can_frame" = false ∧ isExitAvtpToCan "enter_forward_can_frame" = false := by
  decide

theorem tests_sys_enter_sendto :
    isEnterRead "sys_enter_sendto" = false ∧ isExitRead "sys_enter_sendto" = false ∧
    isEnterSendto "sys_enter_sendto" = true ∧ isExitSendto "sys_enter_sendto" = false ∧
    isEnterCanToAvtp "sys_enter_sendto" = false ∧ isExitCanToAvtp "sys_enter_sendto" = false ∧
    isEnterAvtpToCan "sys_enter_sendto" = false ∧ isExitAvtpToCan "sys_enter_sendto" = false := by
  decide

theorem tests_sys_exit_sendto :
    isEnterRead "sys_exit_sendto" = false ∧ isExitRead "sys_exit_sendto" = false ∧
    isEnterSendto "sys_exit_sendto" = false ∧ isExitSendto "sys_exit_sendto" = true ∧
    isEnterCanToAvtp "sys_exit_sendto" = false ∧ isExitCanToAvtp "sys_exit_sendto" = false ∧
    isEnterAvtpToCan "sys_exit_sendto" = false ∧ isExitAvtpToCan "sys_exit_sendto" = false := by
  decide

theorem tests_exit_forward_can_frame :
    isEnterRead "exit_forward_can_frame" = false ∧ isExitRead "exit_forward_can_frame" = false ∧
    isEnterSendto "exit_forward_can_frame" = false ∧ isExitSendto "exit_forward_can_frame" = true ∧
    isEnterCanToAvtp "exit_forward_can_frame" = false ∧ isExitCanToAvtp "exit_forward_can_frame" = false ∧
    isEnterAvtpToCan "exit_forward_can_frame" = false ∧ isExitAvtpToCan "exit_forward_can_frame" = false := by
  decide

theorem tests_can_to_avtp_enter :
    isEnterRead "can_to_avtp_enter" = false ∧ isExitRead "can_to_avtp_enter" = false ∧
    isEnterSendto "can_to_avtp_enter" = false ∧ isExitSendto "can_to_avtp_enter" = false ∧
    isEnterCanToAvtp "can_to_avtp_enter" = true ∧ isExitCanToAvtp "can_to_avtp_enter" = false ∧
    isEnterAvtpToCan "can_to_avtp_enter" = false ∧ isExitAvtpToCan "can_to_avtp_enter" = false := by
  decide

theorem tests_can_to_avtp_exit :
    isEnterRead "can_to_avtp_exit" = false ∧ isExitRead "can_to_avtp_exit" = false ∧
    isEnterSendto "can_to_avtp_exit" = false ∧ isExitSendto "can_to_avtp_exit" = false ∧
    isEnterCanToAvtp "can_to_avtp_exit" = false ∧ isExitCanToAvtp "can_to_avtp_exit" = true ∧
    isEnterAvtpToCan "can_to_avtp_exit" = false ∧ isExitAvtpToCan "can_to_avtp_exit" = false := by
  decide

theorem tests_avtp_to_can_enter :
    isEnterRead "avtp_to_can_enter" = false ∧ isExitRead "avtp_to_can_enter" = false ∧
    isEnterSendto "avtp_to_can_enter" = false ∧ isExitSendto "avtp_to_can_enter" = false ∧
    isEnterCanToAvtp "avtp_to_can_enter" = false ∧ isExitCanToAvtp "avtp_to_can_enter" = false ∧
    isEnterAvtpToCan "avtp_to_can_enter" = true ∧ isExitAvtpToCan "avtp_to_can_enter" = false := by
  decide

theorem tests_avtp_to_can_exit :
    isEnterRead "avtp_to_can_exit" = false ∧ isExitRead "avtp_to_can_exit" = false ∧
    isEnterSendto "avtp_to_can_exit" = false ∧ isExitSendto "avtp_to_can_exit" = false ∧
    isEnterCanToAvtp "avtp_to_can_exit" = false ∧ isExitCanToAvtp "avtp_to_can_exit" = false ∧
    isEnterAvtpToCan "avtp_to_can_exit" = false ∧ isExitAvtpToCan "avtp_to_can_exit" = true := by
  decide

theorem sub64_of_le {a b : Nat} (hab : b ≤ a) (ha : a < 2 ^ 64) : sub64 a b = a - b := by
  unfold sub64
  rw [show a + 2 ^ 64 - b = (a - b) + 2 ^ 64 by omega, Nat.add_mod_right]
  exact Nat.mod_eq_of_lt (by omega)

theorem LogData_apply (m : LogMap) (uid pid ts : Nat) (funcName dev : String) (j : Nat) :
    LogData m uid pid ts funcName dev j =
      if j = uid then stepRecord (m uid) pid ts funcName dev else m j := by
  cases h : m uid with
  | none =>
    rw [LogData_of_none h]
    cases hf : freshRecord pid ts funcName dev with
    | none =>
      by_cases hj : j = uid
      · simp [stepRecord, hf, hj, h]
      · simp [hj]
    | some r => simp [stepRecord, hf, LogMap.set]
  | some r =>
    rw [LogData_of_some h]
    simp [stepRecord, LogMap.set]

theorem LogData_self (m : LogMap) (uid pid ts : Nat) (funcName dev : String) :
    LogData m uid pid ts funcName dev uid = stepRecord (m uid) pid ts funcName dev := by
  simp [LogData_apply]

theorem LogData_other (m : LogMap) (uid pid ts : Nat) (funcName dev : String) {j : Nat}
    (hj : j ≠ uid) : LogData m uid pid ts funcName dev j = m j := by
  simp [LogData_apply, hj]

/-! ## C1: an enter event followed by the exit event of the same stage -/

/-- C1. From the empty map, `LogData` with the canonical enter marker of a stage
at a non-zero `t1` and then with its exit marker at `t2 ≥ t1` leaves one record,
under `uid`: its enter timestamp for the stage is `t1`, its exit timestamp `t2`,
its duration `t2 - t1`, and the timestamps and durations of the other three
stages are all zero. -/
theorem LogData_enter_then_exit (s : Stage) (uid pid : Nat) (dev : String) (t1 t2 : Nat)
    (h1 : t1 ≠ 0) (h12 : t1 ≤ t2) (h2 : t2 < 2 ^ 64) :
    ∃ r : EventLog,
      (∀ k, LogData (LogData LogMap.empty uid pid t1 s.enterMarker dev) uid pid t2
          s.exitMarker dev k = if k = uid then some r else none) ∧
      r.Pid = pid ∧ r.Dev = dev ∧
      s.enterTs r = t1 ∧ s.exitTs r = t2 ∧ s.duration r = t2 - t1 ∧
      ∀ s' : Stage, s' ≠ s → s'.enterTs r = 0 ∧ s'.exitTs r = 0 ∧ s'.duration r = 0 := by
  refine ⟨updateRecord ((freshRecord pid t1 s.enterMarker dev).getD EventLog.zero) t2
    s.exitMarker, ?_, ?_⟩
  · intro k
    simp only [LogData_apply]
    by_cases hk : k = uid
    · subst hk
      cases s <;>
        simp [LogMap.empty, stepRecord, freshRecord, Stage.enterMarker, Stage.exitMarker,
          tests_sys_enter_read, tests_sys_enter_sendto, tests_can_to_avtp_enter,
          tests_avtp_to_can_enter]
    · simp [hk, LogMap.empty]
  · cases s <;>
      simp [freshRecord, updateRecord, stepEnter, stepExit, setEnter, setExit, Stage.isEnter, Stage.isExit, Stage.enterMarker, Stage.exitMarker, Stage.enterTs,
        Stage.exitTs, Stage.duration, EventLog.lit, h1, sub64_of_le h12 h2,
        tests_sys_enter_read, tests_sys_enter_sendto, tests_can_to_avtp_enter,
        tests_avtp_to_can_enter, tests_sys_exit_read, tests_sys_exit_sendto,
        tests_can_to_avtp_exit, tests_avtp_to_can_exit] <;>
      intro s' hs' <;> cases s' <;> simp_all

/-- C1, witness: the read stage on device `can0`, uid 7, from 1000 to 1400. -/
theorem LogData_enter_then_exit_witness :
    ∃ r : EventLog,
      (∀ k, LogData (LogData LogMap.empty 7 42 1000 Stage.read.enterMarker "can0") 7 42 1400
          Stage.read.exitMarker "can0" k = if k = 7 then some r else none) ∧
      r.Pid = 42 ∧ r.Dev = "can0" ∧
      Stage.read.enterTs r = 1000 ∧ Stage.read.exitTs r = 1400 ∧
      Stage.read.duration r = 1400 - 1000 ∧
      ∀ s' : Stage, s' ≠ Stage.read →
        s'.enterTs r = 0 ∧ s'.exitTs r = 0 ∧ s'.duration r = 0 :=
  LogData_enter_then_exit Stage.read 7 42 "can0" 1000 1400 (by decide) (by decide) (by decide)

/-! ## C6: an exit event without a matching enter -/

/-- C6. For a marker equal to one of the exit markers `sys_exit_read`,
`sys_exit_sendto`, `exit_forward_can_frame`, `can_to_avtp_exit`,
`avtp_to_can_exit` of a stage: if the map has no record for `uid`, or has one
whose enter timestamp for the stage is zero, then after `LogData` the map has a
record for `uid` whose exit timestamp for the stage is `ts` and whose duration
for the stage is what it was before, zero for a record just created. -/
theorem LogData_exit_without_enter (m : LogMap) (uid pid ts : Nat) (dev funcName : String)
    (s : Stage) (hf : (funcName, s) ∈ plainExitMarkers)
    (hm : m uid = none ∨ ∃ r, m uid = some r ∧ s.enterTs r = 0) :
    ∃ r' : EventLog, LogData m uid pid ts funcName dev uid = some r' ∧
      s.exitTs r' = ts ∧ s.duration r' = s.duration (m.get uid) ∧
      (m uid = none → s.duration r' = 0) := by
  rw [LogData_self]
  simp only [plainExitMarkers, List.mem_cons, Prod.mk.injEq, List.mem_singleton,
    List.not_mem_nil, or_false] at hf
  rcases hm with hm | ⟨r, hm, he⟩
  · rw [hm]
    rcases hf with ⟨rfl, rfl⟩ | ⟨rfl, rfl⟩ | ⟨rfl, rfl⟩ | ⟨rfl, rfl⟩ | ⟨rfl, rfl⟩ <;>
      simp [stepRecord, freshRecord, LogMap.get, hm, Stage.exitTs, Stage.duration,
        EventLog.lit, EventLog.zero, tests_sys_exit_read, tests_sys_exit_sendto,
        tests_exit_forward_can_frame, tests_can_to_avtp_exit, tests_avtp_to_can_exit]
  · rw [hm]
    rcases hf with ⟨rfl, rfl⟩ | ⟨rfl, rfl⟩ | ⟨rfl, rfl⟩ | ⟨rfl, rfl⟩ | ⟨rfl, rfl⟩ <;>
      simp [Stage.enterTs] at he <;>
      simp [stepRecord, updateRecord, stepEnter, stepExit, setEnter, setExit, Stage.isEnter, Stage.isExit, LogMap.get, hm, he, Stage.exitTs, Stage.duration,
        tests_sys_exit_read, tests_sys_exit_sendto,
        tests_exit_forward_can_frame, tests_can_to_avtp_exit, tests_avtp_to_can_exit]

/-- C6, witness: `exit_forward_can_frame` on the empty map. -/
theorem LogData_exit_without_enter_witness :
    ∃ r' : EventLog, LogData LogMap.empty 7 42 1400 "exit_forward_can_frame" "can0" 7 = some r' ∧
      Stage.sendto.exitTs r' = 1400 ∧
      Stage.sendto.duration r' = Stage.sendto.duration (LogMap.empty.get 7) ∧
      (LogMap.empty 7 = none → Stage.sendto.duration r' = 0) :=
  LogData_exit_without_enter LogMap.empty 7 42 1400 "can0" "exit_forward_can_frame" Stage.sendto
    (by decide) (Or.inl rfl)

/-! ## C7: an enter event overwrites the enter timestamp -/

/-- C7. For a marker equal to one of the enter markers `sys_enter_read`,
`acfcan_tx`, `sys_enter_sendto`, `enter_forward_can_frame`, `can_to_avtp_enter`,
`avtp_to_can_enter` of a stage, the record for `uid` after `LogData` has the
stage's enter timestamp equal to `ts`, whatever the map held before.  And from
the empty map, an enter at `ts`, a second enter at `t2` and an exit at `t3`, with
`t2` non-zero and `t3 ≥ t2`, give enter timestamp `t2` and duration `t3 - t2`. -/
theorem LogData_enter_overwrites (m : LogMap) (uid pid ts : Nat) (dev funcName : String)
    (s : Stage) (hf : (funcName, s) ∈ enterMarkers) :
    (∃ r' : EventLog, LogData m uid pid ts funcName dev uid = some r' ∧ s.enterTs r' = ts) ∧
    ∀ (funcName2 exitName : String) (t2 t3 : Nat),
      (funcName2, s) ∈ enterMarkers → (exitName, s) ∈ exitMarkers →
      t2 ≠ 0 → t2 ≤ t3 → t3 < 2 ^ 64 →
      ∃ r : EventLog,
        LogData (LogData (LogData LogMap.empty uid pid ts funcName dev) uid pid t2 funcName2 dev)
          uid pid t3 exitName dev uid = some r ∧
        s.enterTs r = t2 ∧ s.exitTs r = t3 ∧ s.duration r = t3 - t2 := by
  simp only [enterMarkers, List.mem_cons, Prod.mk.injEq, List.mem_singleton,
    List.not_mem_nil, or_false] at hf
  constructor
  · rw [LogData_self]
    cases hm : m uid with
    | none =>
      rcases hf with ⟨rfl, rfl⟩ | ⟨rfl, rfl⟩ | ⟨rfl, rfl⟩ | ⟨rfl, rfl⟩ | ⟨rfl, rfl⟩ | ⟨rfl, rfl⟩ <;>
        simp [stepRecord, freshRecord, Stage.enterTs, EventLog.lit, tests_sys_enter_read,
          tests_acfcan_tx, tests_sys_enter_sendto, tests_enter_forward_can_frame,
          tests_can_to_avtp_enter, tests_avtp_to_can_enter]
    | some r =>
      rcases hf with ⟨rfl, rfl⟩ | ⟨rfl, rfl⟩ | ⟨rfl, rfl⟩ | ⟨rfl, rfl⟩ | ⟨rfl, rfl⟩ | ⟨rfl, rfl⟩ <;>
        simp [stepRecord, updateRecord, stepEnter, stepExit, setEnter, setExit, Stage.isEnter, Stage.isExit, Stage.enterTs, tests_sys_enter_read,
          tests_acfcan_tx, tests_sys_enter_sendto, tests_enter_forward_can_frame,
          tests_can_to_avtp_enter, tests_avtp_to_can_enter, apply_ite]
  · intro funcName2 exitName t2 t3 hf2 hx h2 h23 h3
    simp only [enterMarkers, exitMarkers, List.mem_cons, Prod.mk.injEq, List.mem_singleton,
      List.not_mem_nil, or_false] at hf2 hx
    simp only [LogData_self]
    have hd := sub64_of_le h23 h3
    rcases hf with ⟨rfl, rfl⟩ | ⟨rfl, rfl⟩ | ⟨rfl, rfl⟩ | ⟨rfl, rfl⟩ | ⟨rfl, rfl⟩ | ⟨rfl, rfl⟩ <;>
      simp at hf2 hx <;>
      rcases hf2 with rfl | rfl <;> rcases hx with rfl | rfl <;>
      simp [LogMap.empty, stepRecord, freshRecord, updateRecord, stepEnter, stepExit, setEnter, setExit, Stage.isEnter, Stage.isExit, Stage.enterTs, Stage.exitTs,
        Stage.duration, EventLog.lit, h2, hd, tests_sys_enter_read, tests_acfcan_tx,
        tests_sys_enter_sendto, tests_enter_forward_can_frame, tests_can_to_avtp_enter,
        tests_avtp_to_can_enter, tests_sys_exit_read, tests_sys_exit_sendto,
        tests_exit_forward_can_frame, tests_can_to_avtp_exit, tests_avtp_to_can_exit]

/-- C7, witness: `acfcan_tx`, then `sys_enter_read`, then
`enter_forward_can_frame`, all of the read stage. -/
theorem LogData_enter_overwrites_witness :
    (∃ r' : EventLog, LogData LogMap.empty 7 42 1000 "acfcan_tx" "can0" 7 = some r' ∧
      Stage.read.enterTs r' = 1000) ∧
    ∃ r : EventLog,
      LogData (LogData (LogData LogMap.empty 7 42 1000 "acfcan_tx" "can0") 7 42 1200
        "sys_enter_read" "can0") 7 42 1500 "enter_forward_can_frame" "can0" 7 = some r ∧
      Stage.read.enterTs r = 1200 ∧ Stage.read.exitTs r = 1500 ∧
      Stage.read.duration r = 1500 - 1200 :=
  ⟨(LogData_enter_overwrites LogMap.empty 7 42 1000 "can0" "acfcan_tx" Stage.read
      (by decide)).1,
   (LogData_enter_overwrites LogMap.empty 7 42 1000 "can0" "acfcan_tx" Stage.read
      (by decide)).2 "sys_enter_read" "enter_forward_can_frame" 1200 1500
      (by decide) (by decide) (by decide) (by decide) (by decide)⟩

/-! ## What one call does to the fields of a stage -/

theorem stepEnter_fields (s s' : Stage) (funcName : String) (ts : Nat) (r : EventLog) :
    s'.enterTs (stepEnter s funcName ts r) =
      (if s' = s ∧ s.isEnter funcName = true then ts else s'.enterTs r) ∧
    s'.exitTs (stepEnter s funcName ts r) = s'.exitTs r ∧
    s'.duration (stepEnter s funcName ts r) = s'.duration r := by
  unfold stepEnter
  cases s.isEnter funcName <;> cases s <;> cases s' <;>
    simp [setEnter, Stage.enterTs, Stage.exitTs, Stage.duration]

theorem stepExit_fields (s s' : Stage) (funcName : String) (ts : Nat) (r : EventLog) :
    s'.enterTs (stepExit s funcName ts r) = s'.enterTs r ∧
    s'.exitTs (stepExit s funcName ts r) =
      (if s' = s ∧ s.isExit funcName = true then ts else s'.exitTs r) ∧
    s'.duration (stepExit s funcName ts r) =
      (if s' = s ∧ s.isExit funcName = true ∧ s.enterTs r ≠ 0 then sub64 ts (s.enterTs r)
       else s'.duration r) := by
  unfold stepExit
  cases s.isExit funcName <;> cases s <;> cases s' <;>
    simp [setExit, Stage.enterTs, Stage.exitTs, Stage.duration] <;>
    split_ifs <;> simp_all

/-- On a record that is present, every test that holds is applied: the enter
test sets the enter timestamp, the exit test sets the exit timestamp and, when
the enter timestamp is then non-zero, the duration; the fields of a stage
neither of whose tests holds are left as they were. -/
theorem updateRecord_stage (r : EventLog) (ts : Nat) (funcName : String) (s : Stage) :
    s.enterTs (updateRecord r ts funcName) =
      (if s.isEnter funcName = true then ts else s.enterTs r) ∧
    s.exitTs (updateRecord r ts funcName) =
      (if s.isExit funcName = true then ts else s.exitTs r) ∧
    s.duration (updateRecord r ts funcName) =
      (if s.isExit funcName = true ∧ s.enterTs (updateRecord r ts funcName) ≠ 0 then
        sub64 ts (s.enterTs (updateRecord r ts funcName)) else s.duration r) := by
  cases s <;>
    simp [updateRecord, stepEnter_fields, stepExit_fields]

theorem stepEnter_ident (s : Stage) (funcName : String) (ts : Nat) (r : EventLog) :
    (stepEnter s funcName ts r).Pid = r.Pid ∧ (stepEnter s funcName ts r).Dev = r.Dev := by
  unfold stepEnter
  cases s.isEnter funcName <;> cases s <;> simp [setEnter]

theorem stepExit_ident (s : Stage) (funcName : String) (ts : Nat) (r : EventLog) :
    (stepExit s funcName ts r).Pid = r.Pid ∧ (stepExit s funcName ts r).Dev = r.Dev := by
  unfold stepExit
  cases s.isExit funcName <;> cases s <;> simp [setExit] <;> split_ifs <;> simp

theorem updateRecord_ident (r : EventLog) (ts : Nat) (funcName : String) :
    (updateRecord r ts funcName).Pid = r.Pid ∧ (updateRecord r ts funcName).Dev = r.Dev := by
  simp [updateRecord, stepEnter_ident, stepExit_ident]

/-- A record created by the branch for an absent key has the identity of the
call, no duration, and at most one timestamp set. -/
theorem freshRecord_stage {pid ts : Nat} {funcName dev : String} {r : EventLog}
    (h : freshRecord pid ts funcName dev = some r) (s : Stage) :
    r.Pid = pid ∧ r.Dev = dev ∧ s.duration r = 0 ∧ (s.enterTs r = 0 ∨ s.exitTs r = 0) := by
  unfold freshRecord at h
  split_ifs at h <;> cases h <;> cases s <;>
    simp [EventLog.lit, Stage.duration, Stage.enterTs, Stage.exitTs]

theorem freshRecord_isSome_of_isExit {funcName : String} {s : Stage}
    (h : s.isExit funcName = true) (pid ts : Nat) (dev : String) :
    ∃ r, freshRecord pid ts funcName dev = some r := by
  unfold freshRecord
  cases s <;> simp only [Stage.isExit] at h <;> split_ifs <;> simp_all

/-! ## C9: a first event on an absent key against the all-zero record -/

/-- C9, evaluated at `enter_forward_can_frame`, uid 7, timestamp 1400.  On a
map without the key the record is left with a zero read-exit timestamp; on a
map that holds the all-zero record of the same pid and device the same call
sets the read-exit timestamp to 1400.  Both set the sendto-enter timestamp. -/
theorem LogData_absent_key_loses_read_exit :
    LogData LogMap.empty 7 42 1400 "enter_forward_can_frame" "can0" 7 =
      some (EventLog.lit 42 "can0" 0 0 1400 0 0 0 0 0) ∧
    LogData (LogMap.empty.set 7 (EventLog.lit 42 "can0" 0 0 0 0 0 0 0 0)) 7 42 1400
        "enter_forward_can_frame" "can0" 7 =
      some (EventLog.lit 42 "can0" 0 1400 1400 0 0 0 0 0) := by
  decide

/-! ## C10: a marker that satisfies more than one test -/

/-- C10 fails as stated.  `enter_forward_can_frame` satisfies the read-exit test,
which comes first, and the sendto-enter test, which comes later; on a record
that is present the call changes the sendto-enter timestamp, a field of the
later test, from 0 to 1400. -/
theorem LogData_first_match_only_counterexample :
    isEnterRead "enter_forward_can_frame" = false ∧
    isExitRead "enter_forward_can_frame" = true ∧
    isEnterSendto "enter_forward_can_frame" = true ∧
    (LogMap.empty.set 7 (EventLog.lit 42 "can0" 1000 0 0 0 0 0 0 0) 7).map
      (fun r => r.TimestampEnterSendto) = some 0 ∧
    (LogData (LogMap.empty.set 7 (EventLog.lit 42 "can0" 1000 0 0 0 0 0 0 0)) 7 42 1400
      "enter_forward_can_frame" "can0" 7).map (fun r => r.TimestampEnterSendto) = some 1400 := by
  decide

/-- C10, amended. On a map that holds a record for `uid`, `LogData` applies the
transition of every test the marker satisfies, in the order of the tests: for
each stage, the enter timestamp is `ts` if the enter test holds, the exit
timestamp is `ts` if the exit test holds, the duration is `ts` minus the enter
timestamp if the exit test holds and the enter timestamp is then non-zero, and
each of the three is unchanged otherwise; pid and device are unchanged. -/
theorem LogData_applies_every_match (m : LogMap) (uid pid ts : Nat) (funcName dev : String)
    (r : EventLog) (hm : m uid = some r) :
    ∃ r' : EventLog, LogData m uid pid ts funcName dev uid = some r' ∧
      r'.Pid = r.Pid ∧ r'.Dev = r.Dev ∧
      ∀ s : Stage,
        s.enterTs r' = (if s.isEnter funcName = true then ts else s.enterTs r) ∧
        s.exitTs r' = (if s.isExit funcName = true then ts else s.exitTs r) ∧
        s.duration r' =
          (if s.isExit funcName = true ∧ s.enterTs r' ≠ 0 then sub64 ts (s.enterTs r')
           else s.duration r) := by
  refine ⟨updateRecord r ts funcName, ?_, (updateRecord_ident r ts funcName).1,
    (updateRecord_ident r ts funcName).2, fun s => updateRecord_stage r ts funcName s⟩
  rw [LogData_self, hm]
  rfl

/-- C10, amended, witness: `enter_forward_can_frame` on a record whose read
stage was entered at 1000. -/
theorem LogData_applies_every_match_witness :
    ∃ r' : EventLog,
      LogData (LogMap.empty.set 7 (EventLog.lit 42 "can0" 1000 0 0 0 0 0 0 0)) 7 42 1400
        "enter_forward_can_frame" "can0" 7 = some r' ∧
      r'.Pid = (EventLog.lit 42 "can0" 1000 0 0 0 0 0 0 0).Pid ∧
      r'.Dev = (EventLog.lit 42 "can0" 1000 0 0 0 0 0 0 0).Dev ∧
      ∀ s : Stage,
        s.enterTs r' = (if s.isEnter "enter_forward_can_frame" = true then 1400
          else s.enterTs (EventLog.lit 42 "can0" 1000 0 0 0 0 0 0 0)) ∧
        s.exitTs r' = (if s.isExit "enter_forward_can_frame" = true then 1400
          else s.exitTs (EventLog.lit 42 "can0" 1000 0 0 0 0 0 0 0)) ∧
        s.duration r' =
          (if s.isExit "enter_forward_can_frame" = true ∧ s.enterTs r' ≠ 0 then
            sub64 1400 (s.enterTs r')
           else s.duration (EventLog.lit 42 "can0" 1000 0 0 0 0 0 0 0)) :=
  LogData_applies_every_match (LogMap.empty.set 7 (EventLog.lit 42 "can0" 1000 0 0 0 0 0 0 0))
    7 42 1400 "enter_forward_can_frame" "can0" (EventLog.lit 42 "can0" 1000 0 0 0 0 0 0 0)
    (by decide)

/-! ## C5: durations in reachable maps -/

theorem applyCalls_nil (m : LogMap) : applyCalls m [] = m := rfl

theorem applyCalls_cons (m : LogMap) (c : Call) (cs : List Call) :
    applyCalls m (c :: cs) = applyCalls (c.apply m) cs := rfl

theorem applyCalls_append (m : LogMap) (cs ds : List Call) :
    applyCalls m (cs ++ ds) = applyCalls (applyCalls m cs) ds := by
  simp [applyCalls, List.foldl_append]

theorem Call.apply_self (m : LogMap) (c : Call) :
    c.apply m c.uid = stepRecord (m c.uid) c.pid c.ts c.funcName c.dev :=
  LogData_self m c.uid c.pid c.ts c.funcName c.dev

theorem Call.apply_other (m : LogMap) (c : Call) {j : Nat} (hj : j ≠ c.uid) :
    c.apply m j = m j :=
  LogData_other m c.uid c.pid c.ts c.funcName c.dev hj

/-- Right after a call whose marker satisfies the exit test of a stage, the
duration of the stage is the difference of its two timestamps whenever both are
non-zero. -/
theorem stepRecord_after_exit {s : Stage} {funcName : String} (hx : s.isExit funcName = true)
    (o : Option EventLog) (pid ts : Nat) (dev : String) {r : EventLog}
    (hr : stepRecord o pid ts funcName dev = some r)
    (he : s.enterTs r ≠ 0) (hxt : s.exitTs r ≠ 0) :
    s.duration r = sub64 (s.exitTs r) (s.enterTs r) := by
  cases o with
  | none =>
    rcases (freshRecord_stage hr s).2.2.2 with h | h
    · exact absurd h he
    · exact absurd h hxt
  | some r0 =>
    simp only [stepRecord, Option.some.injEq] at hr
    subst hr
    obtain ⟨-, h2, h3⟩ := updateRecord_stage r0 ts funcName s
    rw [h3, h2, if_pos hx, if_pos ⟨hx, he⟩]

/-- A call whose marker satisfies neither test of a stage leaves the three
fields of the stage of a present record as they were. -/
theorem stepRecord_frame {s : Stage} {funcName : String} (hn : s.isEnter funcName = false)
    (hx : s.isExit funcName = false) (r0 : EventLog) (pid ts : Nat) (dev : String) :
    ∃ r, stepRecord (some r0) pid ts funcName dev = some r ∧
      s.enterTs r = s.enterTs r0 ∧ s.exitTs r = s.exitTs r0 ∧ s.duration r = s.duration r0 := by
  refine ⟨updateRecord r0 ts funcName, rfl, ?_⟩
  obtain ⟨h1, h2, h3⟩ := updateRecord_stage r0 ts funcName s
  rw [h1, h2, h3]
  simp [hn, hx]

theorem applyCalls_frame (s : Stage) (uid : Nat) (post : List Call) :
    ∀ (m : LogMap) (r0 : EventLog), m uid = some r0 →
      (∀ d ∈ post, d.uid = uid → s.isEnter d.funcName = false ∧ s.isExit d.funcName = false) →
      ∃ r, applyCalls m post uid = some r ∧
        s.enterTs r = s.enterTs r0 ∧ s.exitTs r = s.exitTs r0 ∧
        s.duration r = s.duration r0 := by
  induction post with
  | nil => intro m r0 h0 _; exact ⟨r0, h0, rfl, rfl, rfl⟩
  | cons d post ih =>
    intro m r0 h0 hpost
    rw [applyCalls_cons]
    have hrest : ∀ e ∈ post, e.uid = uid →
        s.isEnter e.funcName = false ∧ s.isExit e.funcName = false :=
      fun e he => hpost e (List.mem_cons_of_mem _ he)
    by_cases hd : d.uid = uid
    · obtain ⟨hn, hx⟩ := hpost d (List.mem_cons_self _ _) hd
      obtain ⟨r1, hr1, a1, a2, a3⟩ := stepRecord_frame hn hx r0 d.pid d.ts d.dev
      have h1 : d.apply m uid = some r1 := by
        rw [← hd, Call.apply_self, hd, h0, hr1]
      obtain ⟨r, hr, b1, b2, b3⟩ := ih (d.apply m) r1 h1 hrest
      exact ⟨r, hr, b1.trans a1, b2.trans a2, b3.trans a3⟩
    · have h1 : d.apply m uid = some r0 := by
        rw [Call.apply_other m d (Ne.symm hd), h0]
      exact ih (d.apply m) r0 h1 hrest

theorem applyCalls_no_exit (s : Stage) (uid : Nat) (cs : List Call) :
    ∀ (m : LogMap), (∀ r, m uid = some r → s.duration r = 0) →
      (∀ d ∈ cs, d.uid = uid → s.isExit d.funcName = false) →
      ∀ r, applyCalls m cs uid = some r → s.duration r = 0 := by
  induction cs with
  | nil => intro m hm _ r hr; exact hm r hr
  | cons d cs ih =>
    intro m hm hcs
    rw [applyCalls_cons]
    refine ih (d.apply m) ?_ (fun e he => hcs e (List.mem_cons_of_mem _ he))
    intro r hr
    by_cases hd : d.uid = uid
    · have hx := hcs d (List.mem_cons_self _ _) hd
      rw [← hd, Call.apply_self, hd] at hr
      cases h0 : m uid with
      | none =>
        rw [h0] at hr
        exact (freshRecord_stage hr s).2.2.1
      | some r0 =>
        rw [h0] at hr
        simp only [stepRecord, Option.some.injEq] at hr
        subst hr
        rw [(updateRecord_stage r0 d.ts d.funcName s).2.2]
        simp [hx, hm r0 h0]
    · rw [Call.apply_other m d (Ne.symm hd)] at hr
      exact hm r hr

/-- C5 fails as stated.  An exit event of the read stage at 1400 followed by an
enter event at 1000, both for uid 7, leaves a record whose two read timestamps
are non-zero and whose read duration is 0, not 400. -/
theorem duration_not_computed_counterexample :
    applyCalls LogMap.empty
        [⟨7, 42, 1400, "sys_exit_read", "can0"⟩, ⟨7, 42, 1000, "sys_enter_read", "can0"⟩] 7 =
      some (EventLog.lit 42 "can0" 1000 1400 0 0 0 0 0 0) ∧
    Stage.read.enterTs (EventLog.lit 42 "can0" 1000 1400 0 0 0 0 0 0) ≠ 0 ∧
    Stage.read.exitTs (EventLog.lit 42 "can0" 1000 1400 0 0 0 0 0 0) ≠ 0 ∧
    Stage.read.duration (EventLog.lit 42 "can0" 1000 1400 0 0 0 0 0 0) = 0 ∧
    sub64 (Stage.read.exitTs (EventLog.lit 42 "can0" 1000 1400 0 0 0 0 0 0))
      (Stage.read.enterTs (EventLog.lit 42 "can0" 1000 1400 0 0 0 0 0 0)) = 400 := by
  decide

/-- C5, amended. In the map reached from the empty map by a sequence of
`LogData` calls, for the record under a uid and for each stage: if the latest
call for that uid whose marker satisfies a test of the stage satisfies its exit
test, then the duration is the exit timestamp minus the enter timestamp modulo
`2 ^ 64` whenever both timestamps are non-zero; and if no call for that uid
satisfied the exit test of the stage, the duration is 0. -/
theorem duration_of_reachable (s : Stage) :
    (∀ (pre post : List Call) (c : Call) (r : EventLog),
      s.isExit c.funcName = true →
      (∀ d ∈ post, d.uid = c.uid →
        s.isEnter d.funcName = false ∧ s.isExit d.funcName = false) →
      applyCalls LogMap.empty (pre ++ c :: post) c.uid = some r →
      s.enterTs r ≠ 0 → s.exitTs r ≠ 0 →
      s.duration r = sub64 (s.exitTs r) (s.enterTs r)) ∧
    (∀ (cs : List Call) (uid : Nat) (r : EventLog),
      (∀ d ∈ cs, d.uid = uid → s.isExit d.funcName = false) →
      applyCalls LogMap.empty cs uid = some r → s.duration r = 0) := by
  constructor
  · intro pre post c r hc hpost hr he hx
    rw [applyCalls_append, applyCalls_cons] at hr
    obtain ⟨r1, hr1⟩ : ∃ r1, c.apply (applyCalls LogMap.empty pre) c.uid = some r1 := by
      rw [Call.apply_self]
      cases h0 : applyCalls LogMap.empty pre c.uid with
      | none => exact freshRecord_isSome_of_isExit hc c.pid c.ts c.dev
      | some r0 => exact ⟨_, rfl⟩
    obtain ⟨r2, hr2, a1, a2, a3⟩ := applyCalls_frame s c.uid post _ r1 hr1 hpost
    rw [hr2, Option.some.injEq] at hr
    subst hr
    rw [a1, a2, a3]
    rw [a1] at he
    rw [a2] at hx
    rw [Call.apply_self] at hr1
    exact stepRecord_after_exit hc _ c.pid c.ts c.dev hr1 he hx
  · intro cs uid r hcs hr
    exact applyCalls_no_exit s uid cs LogMap.empty (fun r h => by simp [LogMap.empty] at h) hcs r hr

/-- C5, amended, witness: enter at 1000, exit at 1400 and then an event of
another stage for uid 7; and a lone enter event. -/
theorem duration_of_reachable_witness :
    Stage.read.duration ({ EventLog.lit 42 "can0" 1000 1400 0 0 1500 0 0 0 with
        TimeReadingCANBus := 400 }) =
      sub64 (Stage.read.exitTs ({ EventLog.lit 42 "can0" 1000 1400 0 0 1500 0 0 0 with
        TimeReadingCANBus := 400 }))
        (Stage.read.enterTs ({ EventLog.lit 42 "can0" 1000 1400 0 0 1500 0 0 0 with
        TimeReadingCANBus := 400 })) ∧
    Stage.read.duration (EventLog.lit 42 "can0" 1000 0 0 0 0 0 0 0) = 0 :=
  ⟨(duration_of_reachable Stage.read).1 [⟨7, 42, 1000, "sys_enter_read", "can0"⟩]
      [⟨7, 42, 1500, "can_to_avtp_enter", "can0"⟩] ⟨7, 42, 1400, "sys_exit_read", "can0"⟩
      ({ EventLog.lit 42 "can0" 1000 1400 0 0 1500 0 0 0 with TimeReadingCANBus := 400 })
      (by decide) (by decide) (by decide) (by decide) (by decide),
   (duration_of_reachable Stage.read).2 [⟨7, 42, 1000, "sys_enter_read", "can0"⟩] 7
      (EventLog.lit 42 "can0" 1000 0 0 0 0 0 0 0) (by decide) (by decide)⟩

/-! ## C8: flows of different (device, uid) pairs do not interfere -/

/-- The record under `(d, u)` after one event: the event's transition if the
event is for `(d, u)`, the record as it was otherwise. -/
theorem recordAt_handleEvent (t : TraceDataMap) (e : PipelineEvent) (d : String) (u : Nat) :
    recordAt (handleEvent t e) d u =
      if e.isFor d u = true then
        stepRecord (recordAt t d u) e.Pid e.Timestamp e.functionStr e.devStr
      else recordAt t d u := by
  unfold handleEvent recordAt PipelineEvent.isFor
  by_cases hd : e.devStr = d
  · subst hd
    cases ht : t e.devStr with
    | none =>
      by_cases hu : e.Uid = u
      · simp [TraceDataMap.set, ht, hu, LogData_apply, LogMap.empty]
      · simp [TraceDataMap.set, ht, hu, LogData_apply, LogMap.empty, Ne.symm hu]
    | some m =>
      by_cases hu : e.Uid = u
      · simp [TraceDataMap.set, ht, hu, LogData_apply]
      · simp [TraceDataMap.set, ht, hu, LogData_apply, Ne.symm hu]
  · have hd' : ¬ d = e.devStr := fun h => hd h.symm
    cases ht : t e.devStr with
    | none => simp [TraceDataMap.set, ht, hd, hd']
    | some m => simp [TraceDataMap.set, ht, hd, hd']

theorem recordAt_foldl (es : List PipelineEvent) (d : String) (u : Nat) :
    ∀ t : TraceDataMap, recordAt (es.foldl handleEvent t) d u =
      (es.filter (PipelineEvent.isFor d u)).foldl stepEvent (recordAt t d u) := by
  induction es with
  | nil => intro t; rfl
  | cons e es ih =>
    intro t
    rw [List.foldl_cons, ih, recordAt_handleEvent]
    by_cases he : e.isFor d u = true
    · simp [List.filter_cons, he, stepEvent]
    · simp [List.filter_cons, he]

theorem handleEvent_dev (t : TraceDataMap) (e : PipelineEvent) (d : String) :
    handleEvent t e d = none ↔ t d = none ∧ e.devStr ≠ d := by
  unfold handleEvent
  by_cases hd : d = e.devStr
  · subst hd
    cases ht : t e.devStr <;> simp [TraceDataMap.set, ht]
  · have hd' : ¬ e.devStr = d := fun h => hd h.symm
    cases ht : t e.devStr <;> simp [TraceDataMap.set, ht, hd, hd']

theorem foldl_handleEvent_dev (es : List PipelineEvent) (d : String) :
    ∀ t : TraceDataMap, es.foldl handleEvent t d = none ↔
      t d = none ∧ ∀ e ∈ es, e.devStr ≠ d := by
  induction es with
  | nil => intro t; simp
  | cons e es ih =>
    intro t
    rw [List.foldl_cons, ih, handleEvent_dev]
    simp only [List.mem_cons, forall_eq_or_imp]
    tauto

theorem recordAt_runEvents (es : List PipelineEvent) (d : String) (u : Nat) :
    recordAt (runEvents es) d u = (es.filter (PipelineEvent.isFor d u)).foldl stepEvent none := by
  unfold runEvents
  rw [recordAt_foldl]
  rfl

/-- C8. The record stored under a device and a uid after a sequence of events
is the record obtained by applying, in the same order, only the events of that
device and uid; hence two sequences that agree on the order of the events of
each (device, uid) pair produce the same store. -/
theorem runEvents_independent (es : List PipelineEvent) (d : String) (u : Nat) :
    recordAt (runEvents es) d u =
      recordAt (runEvents (es.filter (PipelineEvent.isFor d u))) d u ∧
    ∀ es2 : List PipelineEvent,
      (∀ (d' : String) (u' : Nat),
        es.filter (PipelineEvent.isFor d' u') = es2.filter (PipelineEvent.isFor d' u')) →
      runEvents es = runEvents es2 := by
  constructor
  · rw [recordAt_runEvents, recordAt_runEvents, List.filter_filter]
    simp
  · intro es2 h
    have hrec : ∀ d' u', recordAt (runEvents es) d' u' = recordAt (runEvents es2) d' u' := by
      intro d' u'
      rw [recordAt_runEvents, recordAt_runEvents, h]
    have hdev : ∀ (l1 l2 : List PipelineEvent),
        (∀ (d' : String) (u' : Nat),
          l1.filter (PipelineEvent.isFor d' u') = l2.filter (PipelineEvent.isFor d' u')) →
        ∀ d', runEvents l2 d' = none → runEvents l1 d' = none := by
      intro l1 l2 hl d' h2
      unfold runEvents at h2 ⊢
      rw [foldl_handleEvent_dev] at h2 ⊢
      refine ⟨rfl, fun e he hed => ?_⟩
      have hmem : e ∈ l1.filter (PipelineEvent.isFor d' e.Uid) := by
        simp [List.mem_filter, he, PipelineEvent.isFor, hed]
      rw [hl] at hmem
      exact h2.2 e (List.mem_filter.mp hmem).1 hed
    funext d'
    cases h1 : runEvents es d' with
    | none =>
      have := hdev es2 es (fun a b => (h a b).symm) d' h1
      rw [this]
    | some m1 =>
      cases h2 : runEvents es2 d' with
      | none =>
        have := hdev es es2 h d' h2
        rw [h1] at this
        cases this
      | some m2 =>
        congr 1
        funext u'
        have := hrec d' u'
        simpa [recordAt, h1, h2] using this

/-- C8, witness: an enter and an exit of the read stage on `can0` for uid 7,
with an event of `can1` for uid 8 before the first or between the two. -/
theorem runEvents_independent_witness :
    recordAt (runEvents [⟨1000, 42, 7, "sys_enter_read", "can0"⟩,
        ⟨1100, 43, 8, "sys_enter_read", "can1"⟩, ⟨1400, 42, 7, "sys_exit_read", "can0"⟩])
        "can0" 7 =
      recordAt (runEvents (List.filter (PipelineEvent.isFor "can0" 7)
        [⟨1000, 42, 7, "sys_enter_read", "can0"⟩,
        ⟨1100, 43, 8, "sys_enter_read", "can1"⟩, ⟨1400, 42, 7, "sys_exit_read", "can0"⟩]))
        "can0" 7 ∧
    runEvents [⟨1000, 42, 7, "sys_enter_read", "can0"⟩,
        ⟨1100, 43, 8, "sys_enter_read", "can1"⟩, ⟨1400, 42, 7, "sys_exit_read", "can0"⟩] =
      runEvents [⟨1100, 43, 8, "sys_enter_read", "can1"⟩,
        ⟨1000, 42, 7, "sys_enter_read", "can0"⟩, ⟨1400, 42, 7, "sys_exit_read", "can0"⟩] :=
  ⟨(runEvents_independent _ "can0" 7).1,
   (runEvents_independent _ "can0" 7).2 _ (by
      intro d' u'
      by_cases h1 : "can0" = d'
      · have h2 : ¬ "can1" = d' := by
          subst h1
          decide
        by_cases h3 : 7 = u' <;> by_cases h4 : 8 = u' <;>
          simp [List.filter, PipelineEvent.isFor, h1, h2, h3, h4]
      · by_cases h2 : "can1" = d' <;> by_cases h3 : 7 = u' <;> by_cases h4 : 8 = u' <;>
          simp [List.filter, PipelineEvent.isFor, h1, h2, h3, h4])⟩

/-! ## C2 and C3: interarrival times and the two errors -/

theorem interarrivalLoop_eq_none_iff (ts : List Nat) :
    interarrivalLoop ts = none ↔
      ∃ i, i + 1 < ts.length ∧ ts.getD (i + 1) 0 < ts.getD i 0 := by
  induction ts with
  | nil => simp [interarrivalLoop]
  | cons a t ih =>
    cases t with
    | nil => simp [interarrivalLoop]
    | cons b rest =>
      by_cases hba : b < a
      · simp only [interarrivalLoop, hba, if_true, true_iff]
        exact ⟨0, by simp, by simpa using hba⟩
      · simp only [interarrivalLoop, hba, if_false, Option.map_eq_none', ih]
        constructor
        · rintro ⟨i, hi, hlt⟩
          exact ⟨i + 1, by simpa using hi, by simpa using hlt⟩
        · rintro ⟨i, hi, hlt⟩
          cases i with
          | zero => exact absurd (by simpa using hlt) hba
          | succ j => exact ⟨j, by simpa using hi, by simpa using hlt⟩

theorem interarrivalLoop_spec (ts : List Nat) :
    (∀ i, i + 1 < ts.length → ts.getD i 0 ≤ ts.getD (i + 1) 0) →
    (∀ x ∈ ts, x < 2 ^ 64) →
    ∃ d, interarrivalLoop ts = some d ∧ d.length = ts.length - 1 ∧
      ∀ i, i + 1 < ts.length → d.getD i 0 = ts.getD (i + 1) 0 - ts.getD i 0 := by
  induction ts with
  | nil => intro _ _; exact ⟨[], rfl, rfl, by simp⟩
  | cons a t ih =>
    cases t with
    | nil => intro _ _; exact ⟨[], rfl, rfl, by simp⟩
    | cons b rest =>
      intro hmono hb
      have hab : a ≤ b := by simpa using hmono 0 (by simp)
      obtain ⟨d, hd, hlen, hget⟩ := ih
        (fun i hi => by simpa using hmono (i + 1) (by simpa using hi))
        (fun x hx => hb x (List.mem_cons_of_mem _ hx))
      refine ⟨sub64 b a :: d, ?_, ?_, ?_⟩
      · simp [interarrivalLoop, Nat.not_lt.mpr hab, hd]
      · simp [hlen]
      · intro i hi
        cases i with
        | zero =>
          simpa using sub64_of_le hab (hb b (by simp))
        | succ j =>
          simpa using hget j (by simpa using hi)

/-- C2. For at least two timestamps, each not below its predecessor,
`CalculateInterarrivalAndJitter` returns no error and an interarrival list one
shorter than the input whose `i`-th element is `ts[i+1] - ts[i]`, a difference
of naturals in which the subtrahend is not the larger. -/
theorem CalculateInterarrivalAndJitter_interarrivals (ts : List Nat)
    (hlen : 2 ≤ ts.length)
    (hmono : ∀ i, i + 1 < ts.length → ts.getD i 0 ≤ ts.getD (i + 1) 0)
    (hbound : ∀ x ∈ ts, x < 2 ^ 64) :
    ∃ d : List Nat,
      (CalculateInterarrivalAndJitter ts).err = none ∧
      (CalculateInterarrivalAndJitter ts).interarrivals = some d ∧
      d.length = ts.length - 1 ∧
      ∀ i, i + 1 < ts.length →
        d.getD i 0 = ts.getD (i + 1) 0 - ts.getD i 0 ∧ ts.getD i 0 ≤ ts.getD (i + 1) 0 := by
  obtain ⟨d, hd, hl, hget⟩ := interarrivalLoop_spec ts hmono hbound
  refine ⟨d, ?_, ?_, hl, fun i hi => ⟨hget i hi, hmono i hi⟩⟩
  · simp [CalculateInterarrivalAndJitter, Nat.not_lt.mpr hlen, hd]
  · simp [CalculateInterarrivalAndJitter, Nat.not_lt.mpr hlen, hd]

/-- C2, witness: `[100, 250, 300]`. -/
theorem CalculateInterarrivalAndJitter_interarrivals_witness :
    ∃ d : List Nat,
      (CalculateInterarrivalAndJitter [100, 250, 300]).err = none ∧
      (CalculateInterarrivalAndJitter [100, 250, 300]).interarrivals = some d ∧
      d.length = [100, 250, 300].length - 1 ∧
      ∀ i, i + 1 < [100, 250, 300].length →
        d.getD i 0 = [100, 250, 300].getD (i + 1) 0 - [100, 250, 300].getD i 0 ∧
        [100, 250, 300].getD i 0 ≤ [100, 250, 300].getD (i + 1) 0 :=
  CalculateInterarrivalAndJitter_interarrivals [100, 250, 300] (by decide)
    (by
      intro i hi
      have hi2 : i < 2 := by
        simp only [List.length_cons, List.length_nil] at hi
        omega
      interval_cases i <;> decide)
    (by decide)

/-- C3. `CalculateInterarrivalAndJitter` returns the error "at least two
timestamps required" exactly when the input has fewer than two timestamps, the
error "timestamps must be in non-decreasing order" exactly when it has at
least two and some timestamp is below its predecessor, and no other error;
with an error the interarrival list is `nil` and the jitter 0. -/
theorem CalculateInterarrivalAndJitter_error (ts : List Nat) :
    ((CalculateInterarrivalAndJitter ts).err = some "at least two timestamps required" ↔
      ts.length < 2) ∧
    ((CalculateInterarrivalAndJitter ts).err =
        some "timestamps must be in non-decreasing order" ↔
      2 ≤ ts.length ∧ ∃ i, i + 1 < ts.length ∧ ts.getD (i + 1) 0 < ts.getD i 0) ∧
    ((CalculateInterarrivalAndJitter ts).err ≠ none ↔
      ts.length < 2 ∨
        (2 ≤ ts.length ∧ ∃ i, i + 1 < ts.length ∧ ts.getD (i + 1) 0 < ts.getD i 0)) ∧
    ((CalculateInterarrivalAndJitter ts).err ≠ none →
      (CalculateInterarrivalAndJitter ts).interarrivals = none ∧
      (CalculateInterarrivalAndJitter ts).jitter = 0) := by
  have hne : ("timestamps must be in non-decreasing order" : String) ≠
      "at least two timestamps required" := by decide
  have hiff := interarrivalLoop_eq_none_iff ts
  generalize (∃ i, i + 1 < ts.length ∧ ts.getD (i + 1) 0 < ts.getD i 0) = P at hiff ⊢
  by_cases hlen : ts.length < 2
  · have h2 : ¬ 2 ≤ ts.length := Nat.not_le.mpr hlen
    simp [CalculateInterarrivalAndJitter, hlen, h2, hne.symm]
  · have h2 : 2 ≤ ts.length := Nat.not_lt.mp hlen
    cases hd : interarrivalLoop ts with
    | none =>
      have hex : P := hiff.mp hd
      simp [CalculateInterarrivalAndJitter, hlen, h2, hd, hne, hex]
    | some d =>
      have hex : ¬ P := by
        rw [← hiff, hd]
        simp
      simp [CalculateInterarrivalAndJitter, hlen, h2, hd, hex]

/-- The two failures on `[5]` and on `[10, 5]`. -/
theorem reducer_failure_examples :
    (CalculateInterarrivalAndJitter [5]).err = some "at least two timestamps required" ∧
    (CalculateInterarrivalAndJitter [5]).interarrivals = none ∧
    (CalculateInterarrivalAndJitter [5]).jitter = 0 ∧
    (CalculateInterarrivalAndJitter [10, 5]).err =
      some "timestamps must be in non-decreasing order" ∧
    (CalculateInterarrivalAndJitter [10, 5]).interarrivals = none ∧
    (CalculateInterarrivalAndJitter [10, 5]).jitter = 0 := by
  simp [CalculateInterarrivalAndJitter, interarrivalLoop]

/-! ## `float64`: integers up to `2 ^ 53` are exact -/

theorem bitLenAux_spec (fuel : Nat) :
    ∀ n, n ≤ fuel → n ≠ 0 →
      2 ^ (bitLenAux fuel n - 1) ≤ n ∧ n < 2 ^ bitLenAux fuel n ∧ 1 ≤ bitLenAux fuel n := by
  induction fuel with
  | zero => intro n hn h0; omega
  | succ f ih =>
    intro n hn h0
    simp only [bitLenAux, h0, if_false]
    by_cases h2 : n / 2 = 0
    · have h1 : n = 1 := by omega
      subst h1
      have : bitLenAux f (1 / 2) = 0 := by
        cases f <;> simp [bitLenAux]
      simp [this]
    · obtain ⟨a, b, c⟩ := ih (n / 2) (by omega) h2
      refine ⟨?_, ?_, by omega⟩
      · simp only [Nat.add_sub_cancel]
        have : 2 ^ bitLenAux f (n / 2) = 2 * 2 ^ (bitLenAux f (n / 2) - 1) := by
          rw [← pow_succ', Nat.sub_add_cancel c]
        omega
      · rw [pow_succ]
        omega

theorem bitLen_spec {n : Nat} (h0 : n ≠ 0) :
    2 ^ (bitLen n - 1) ≤ n ∧ n < 2 ^ bitLen n ∧ 1 ≤ bitLen n :=
  bitLenAux_spec n n (le_refl n) h0

theorem bitLen_le_of_lt {n k : Nat} (h0 : n ≠ 0) (h : n < 2 ^ k) : bitLen n ≤ k := by
  obtain ⟨a, -, c⟩ := bitLen_spec h0
  by_contra hk
  have hk' : k ≤ bitLen n - 1 := by omega
  have : 2 ^ k ≤ 2 ^ (bitLen n - 1) := Nat.pow_le_pow_right (by norm_num) hk'
  omega

/-- A positive integer below `2 ^ 53` is a `float64`. -/
theorem round53_one_of_lt {n : Nat} (h0 : n ≠ 0) (h : n < 2 ^ 53) : round53 n 1 = n := by
  obtain ⟨a, -, c⟩ := bitLen_spec h0
  have hb := bitLen_le_of_lt h0 h
  have h1 : bitLen 1 = 1 := by decide
  obtain ⟨j, hj⟩ : ∃ j : Nat, bitLen n = j + 1 := ⟨bitLen n - 1, by omega⟩
  have hj52 : j ≤ 52 := by omega
  have hl0 : ((bitLen n : Int) - (bitLen 1 : Int)) = (j : Int) := by
    rw [h1, hj]
    push_cast
    ring
  have hpow : 2 ^ j ≤ n := by
    rw [hj] at a
    simpa using a
  have hneg : (-(j : Int)).toNat = 0 := by omega
  have hk : ((j : Int) - 52).toNat = 0 := by omega
  have hk' : (52 - (j : Int)).toNat = 52 - j := by omega
  have hparts : round53Parts n 1 = (n * 2 ^ (52 - j), (j : Int) - 52) := by
    simp [round53Parts, hl0, scale2, hneg, hpow, hk, hk', Nat.mod_one]
  unfold round53
  rw [if_neg h0, hparts]
  simp only
  have hz : ((j : Int) - 52) = -((52 - j : Nat) : Int) := by omega
  rw [hz, zpow_neg, zpow_natCast]
  push_cast
  field_simp

theorem round53_one_of_le {n : Nat} (h : n ≤ 2 ^ 53) : round53 n 1 = n := by
  by_cases h0 : n = 0
  · subst h0
    simp [round53]
  · by_cases h1 : n = 2 ^ 53
    · subst h1
      have hparts : round53Parts (2 ^ 53) 1 = (2 ^ 52, 1) := by decide
      simp only [round53, hparts]
      norm_num
    · exact round53_one_of_lt h0 (by omega)

theorem f64_natCast (n : Nat) : f64 (n : ℚ) = round53 n 1 := by
  simp [f64]

theorem f64_natCast_of_le {n : Nat} (h : n ≤ 2 ^ 53) : f64 (n : ℚ) = n := by
  rw [f64_natCast, round53_one_of_le h]

/-! ## `float64`: the rounding error -/

theorem scale2_ratio (a b : Nat) (hb : 0 < b) (k : Int) :
    (scale2 a (-k) : ℚ) / (scale2 b k : ℚ) = (a : ℚ) / (b : ℚ) * (2 : ℚ) ^ (-k) := by
  have hb' : (b : ℚ) ≠ 0 := by exact_mod_cast hb.ne'
  rcases le_or_lt 0 k with hk | hk
  · obtain ⟨n, rfl⟩ := Int.eq_ofNat_of_zero_le hk
    have h1 : (-(n : Int)).toNat = 0 := by omega
    simp only [scale2, h1, Int.toNat_ofNat, pow_zero, mul_one, Nat.cast_mul, Nat.cast_pow,
      Nat.cast_ofNat, zpow_neg, zpow_natCast]
    field_simp
  · obtain ⟨n, hn⟩ : ∃ n : Nat, -k = (n : Int) := ⟨(-k).toNat, by omega⟩
    have h1 : k.toNat = 0 := by omega
    rw [hn]
    simp only [scale2, h1, Int.toNat_ofNat, pow_zero, mul_one, Nat.cast_mul, Nat.cast_pow,
      Nat.cast_ofNat, zpow_natCast]
    field_simp

theorem roundHalfEven_error (n d : Nat) (hd : 0 < d) :
    |(((if 2 * (n % d) < d then n / d else if d < 2 * (n % d) then n / d + 1
        else if n / d % 2 = 0 then n / d else n / d + 1 : Nat) : ℚ)) - (n : ℚ) / (d : ℚ)|
      ≤ 1 / 2 := by
  have hd' : (0 : ℚ) < d := by exact_mod_cast hd
  have h := Nat.div_add_mod n d
  have hrlt : n % d < d := Nat.mod_lt n hd
  generalize n / d = q at h ⊢
  generalize n % d = r at h hrlt ⊢
  have hn : (n : ℚ) = (d : ℚ) * (q : ℚ) + (r : ℚ) := by exact_mod_cast h.symm
  have hdiv : (n : ℚ) / d = q + (r : ℚ) / d := by
    rw [hn]
    field_simp
    ring
  have hr0 : (0 : ℚ) ≤ (r : ℚ) / d := by positivity
  rw [hdiv, abs_le]
  by_cases h1 : 2 * r < d
  · rw [if_pos h1]
    have : (r : ℚ) / d ≤ 1 / 2 := by
      rw [div_le_iff₀ hd']
      have : (2 * r : ℚ) ≤ d := by exact_mod_cast h1.le
      linarith
    constructor <;> linarith
  · rw [if_neg h1]
    have hge : (1 : ℚ) / 2 ≤ (r : ℚ) / d := by
      rw [le_div_iff₀ hd']
      have : (d : ℚ) ≤ 2 * r := by exact_mod_cast Nat.not_lt.mp h1
      linarith
    have hle1 : (r : ℚ) / d ≤ 1 := by
      rw [div_le_iff₀ hd']
      have : (r : ℚ) ≤ d := by exact_mod_cast hrlt.le
      linarith
    by_cases h2 : d < 2 * r
    · rw [if_pos h2]
      push_cast
      constructor <;> linarith
    · rw [if_neg h2]
      have heq : (r : ℚ) / d = 1 / 2 := by
        have h3 : 2 * r = d := by omega
        rw [div_eq_iff hd'.ne']
        have : (2 * r : ℚ) = d := by exact_mod_cast h3
        linarith
      by_cases h3 : q % 2 = 0
      · rw [if_pos h3]
        constructor <;> linarith
      · rw [if_neg h3]
        push_cast
        constructor <;> linarith

/-- The exponent chosen by `round53Parts` is not above that of `a / b`. -/
theorem exponent_le (a b : Nat) (ha : a ≠ 0) (hb : b ≠ 0) :
    (2 : ℚ) ^ (if scale2 b ((bitLen a : Int) - (bitLen b : Int)) ≤
        scale2 a (-((bitLen a : Int) - (bitLen b : Int)))
      then (bitLen a : Int) - (bitLen b : Int) else (bitLen a : Int) - (bitLen b : Int) - 1)
      ≤ (a : ℚ) / (b : ℚ) := by
  have hbpos : (0 : ℚ) < b := by exact_mod_cast Nat.pos_of_ne_zero hb
  split_ifs with h
  · have hs : (0 : ℚ) < (scale2 b ((bitLen a : Int) - (bitLen b : Int)) : ℚ) := by
      have : 0 < scale2 b ((bitLen a : Int) - (bitLen b : Int)) :=
        Nat.mul_pos (Nat.pos_of_ne_zero hb) (by positivity)
      exact_mod_cast this
    have h1 : (1 : ℚ) ≤ (scale2 a (-((bitLen a : Int) - (bitLen b : Int))) : ℚ) /
        (scale2 b ((bitLen a : Int) - (bitLen b : Int)) : ℚ) := by
      rw [le_div_iff₀ hs, one_mul]
      exact_mod_cast h
    rw [scale2_ratio a b (Nat.pos_of_ne_zero hb), zpow_neg] at h1
    have h2 : (0 : ℚ) < (2 : ℚ) ^ ((bitLen a : Int) - (bitLen b : Int)) := by positivity
    rw [← div_eq_mul_inv, le_div_iff₀ h2] at h1
    linarith
  · obtain ⟨a1, -, a3⟩ := bitLen_spec ha
    obtain ⟨-, b2, -⟩ := bitLen_spec hb
    have e : (bitLen a : Int) - (bitLen b : Int) - 1 =
        ((bitLen a - 1 : Nat) : Int) - ((bitLen b : Nat) : Int) := by omega
    rw [e, zpow_sub₀ (by norm_num), zpow_natCast, zpow_natCast]
    have ha' : ((2 : ℚ) ^ (bitLen a - 1)) ≤ a := by exact_mod_cast a1
    have hb' : (b : ℚ) ≤ (2 : ℚ) ^ bitLen b := by exact_mod_cast b2.le
    exact div_le_div₀ (by positivity) ha' hbpos hb'

theorem round53_rel_error (a b : Nat) (ha : a ≠ 0) (hb : b ≠ 0) :
    |round53 a b - (a : ℚ) / (b : ℚ)| ≤ (a : ℚ) / (b : ℚ) / 2 ^ 53 := by
  have hbpos : 0 < b := Nat.pos_of_ne_zero hb
  have hexp := exponent_le a b ha hb
  unfold round53
  rw [if_neg ha]
  simp only [round53Parts]
  generalize (if scale2 b ((bitLen a : Int) - (bitLen b : Int)) ≤
        scale2 a (-((bitLen a : Int) - (bitLen b : Int)))
      then (bitLen a : Int) - (bitLen b : Int) else (bitLen a : Int) - (bitLen b : Int) - 1) = l
    at hexp ⊢
  have hdpos : 0 < scale2 b (l - 52) := Nat.mul_pos hbpos (by positivity)
  have herr := roundHalfEven_error (scale2 a (-(l - 52))) (scale2 b (l - 52)) hdpos
  rw [scale2_ratio a b hbpos] at herr
  have h2k : (0 : ℚ) < (2 : ℚ) ^ (l - 52) := by positivity
  have key : ∀ m : ℚ, |m - (a : ℚ) / b * (2 : ℚ) ^ (-(l - 52))| ≤ 1 / 2 →
      |m * (2 : ℚ) ^ (l - 52) - (a : ℚ) / b| ≤ (a : ℚ) / b / 2 ^ 53 := by
    intro m hm
    have e1 : m * (2 : ℚ) ^ (l - 52) - (a : ℚ) / b =
        (m - (a : ℚ) / b * (2 : ℚ) ^ (-(l - 52))) * (2 : ℚ) ^ (l - 52) := by
      rw [zpow_neg]
      field_simp
      ring
    rw [e1, abs_mul, abs_of_pos h2k]
    have e2 : (2 : ℚ) ^ (l - 52) = (2 : ℚ) ^ l / 2 ^ 52 := by
      rw [zpow_sub₀ (by norm_num)]
      norm_num
    calc |m - (a : ℚ) / b * (2 : ℚ) ^ (-(l - 52))| * (2 : ℚ) ^ (l - 52)
        ≤ 1 / 2 * (2 : ℚ) ^ (l - 52) := mul_le_mul_of_nonneg_right hm h2k.le
      _ = (2 : ℚ) ^ l / 2 ^ 53 := by rw [e2]; ring
      _ ≤ (a : ℚ) / b / 2 ^ 53 := div_le_div_of_nonneg_right hexp (by positivity)
  exact key _ herr

theorem f64_rel_error (q : ℚ) (hq : 0 < q) : |f64 q - q| ≤ q / 2 ^ 53 := by
  have hnum : 0 < q.num := Rat.num_pos.mpr hq
  have ha : q.num.toNat ≠ 0 := by omega
  have h := round53_rel_error q.num.toNat q.den ha q.den_nz
  have hcast : ((q.num.toNat : Nat) : ℚ) / (q.den : ℚ) = q := by
    have : ((q.num.toNat : Nat) : ℚ) = ((q.num : Int) : ℚ) := by
      have := Int.toNat_of_nonneg hnum.le
      exact_mod_cast congrArg (fun z : Int => (z : ℚ)) this
    rw [this]
    exact Rat.num_div_den q
  rw [hcast] at h
  exact h

theorem f64_zero : f64 0 = 0 := by
  simp [f64, round53]

/-- The rounding moves a value by at most the fraction `2 ^ (-53)` of it. -/
theorem f64_rel_error_of_nonneg (q : ℚ) (hq : 0 ≤ q) : |f64 q - q| ≤ q / 2 ^ 53 := by
  rcases hq.eq_or_lt with h | h
  · rw [← h, f64_zero]
    simp
  · exact f64_rel_error q h

/-! ## C4: the jitter -/

theorem interarrivalLoop_lt (ts : List Nat) :
    ∀ d, interarrivalLoop ts = some d → ∀ x ∈ d, x < 2 ^ 64 := by
  induction ts with
  | nil => intro d hd x hx; simp [interarrivalLoop] at hd; subst hd; simp at hx
  | cons a t ih =>
    cases t with
    | nil => intro d hd x hx; simp [interarrivalLoop] at hd; subst hd; simp at hx
    | cons b rest =>
      intro d hd x hx
      by_cases hba : b < a
      · simp [interarrivalLoop, hba] at hd
      · simp only [interarrivalLoop, hba, if_false, Option.map_eq_some'] at hd
        obtain ⟨d', hd', rfl⟩ := hd
        rcases List.mem_cons.mp hx with rfl | hx'
        · exact Nat.mod_lt _ (by norm_num)
        · exact ih d' hd' x hx'

/-- While the exact sum stays within `2 ^ 53`, the `float64` accumulation of
the loop carries no rounding error. -/
theorem jitterLoop_exact (d : List Nat) :
    ∀ s0 : Nat, (∀ x ∈ d, x < 2 ^ 64) → s0 + absDiffSum d ≤ 2 ^ 53 →
      jitterLoop d (s0 : ℚ) = ((s0 + absDiffSum d : Nat) : ℚ) := by
  induction d with
  | nil => intro s0 _ _; simp [jitterLoop, absDiffSum]
  | cons a t ih =>
    cases t with
    | nil => intro s0 _ _; simp [jitterLoop, absDiffSum]
    | cons b rest =>
      intro s0 hb hs
      have ha64 : a < 2 ^ 64 := hb a (by simp)
      have hb64 : b < 2 ^ 64 := hb b (by simp)
      have hrest : ∀ x ∈ b :: rest, x < 2 ^ 64 := fun x hx => hb x (List.mem_cons_of_mem _ hx)
      simp only [absDiffSum] at hs
      by_cases hgt : b > a
      · simp only [if_pos hgt] at hs
        have hsub : sub64 b a = b - a := sub64_of_le (le_of_lt hgt) hb64
        have hstep : f64 ((s0 : ℚ) + f64 ((sub64 b a : Nat) : ℚ)) = ((s0 + (b - a) : Nat) : ℚ) := by
          rw [hsub, f64_natCast_of_le (by omega), ← Nat.cast_add, f64_natCast_of_le (by omega)]
        simp only [jitterLoop, if_pos hgt, hstep, absDiffSum]
        rw [ih (s0 + (b - a)) hrest (by omega)]
        congr 1
        omega
      · simp only [if_neg hgt] at hs
        have hsub : sub64 a b = a - b := sub64_of_le (Nat.not_lt.mp hgt) ha64
        have hstep : f64 ((s0 : ℚ) + f64 ((sub64 a b : Nat) : ℚ)) = ((s0 + (a - b) : Nat) : ℚ) := by
          rw [hsub, f64_natCast_of_le (by omega), ← Nat.cast_add, f64_natCast_of_le (by omega)]
        simp only [jitterLoop, if_neg hgt, hstep, absDiffSum]
        rw [ih (s0 + (a - b)) hrest (by omega)]
        congr 1
        omega

/-- The recursive sum is the sum over `j` of `|d[j+1] - d[j]|`. -/
theorem absDiffSum_eq_sum (d : List Nat) :
    (absDiffSum d : ℚ) =
      ∑ j in Finset.range (d.length - 1), |(d.getD (j + 1) 0 : ℚ) - (d.getD j 0 : ℚ)| := by
  induction d with
  | nil => simp [absDiffSum]
  | cons a t ih =>
    cases t with
    | nil => simp [absDiffSum]
    | cons b rest =>
      have hlen : (a :: b :: rest).length - 1 = ((b :: rest).length - 1) + 1 := by simp
      rw [hlen, Finset.sum_range_succ']
      simp only [List.getD_cons_succ, List.getD_cons_zero] at ih ⊢
      rw [← ih]
      simp only [absDiffSum]
      push_cast
      rw [add_comm]
      congr 1
      by_cases hgt : b > a
      · rw [if_pos hgt, Nat.cast_sub (le_of_lt hgt), abs_of_nonneg]
        have : (a : ℚ) ≤ b := by exact_mod_cast le_of_lt hgt
        linarith
      · have hle : b ≤ a := Nat.not_lt.mp hgt
        rw [if_neg hgt, Nat.cast_sub hle, abs_of_nonpos, neg_sub]
        have : (b : ℚ) ≤ a := by exact_mod_cast hle
        linarith

theorem round53_eval_a : round53 (2 ^ 53 + 1) 1 = 2 ^ 53 := by
  have hparts : round53Parts (2 ^ 53 + 1) 1 = (2 ^ 52, 1) := by decide
  simp only [round53, hparts]
  norm_num

theorem jitterLoop_eval :
    jitterLoop [0, 2 ^ 53 + 1, 2 ^ 53 + 2] 0 = 2 ^ 53 := by
  have e1 : sub64 (2 ^ 53 + 1) 0 = 2 ^ 53 + 1 := by decide
  have e2 : sub64 (2 ^ 53 + 2) (2 ^ 53 + 1) = 1 := by decide
  have g1 : (2 ^ 53 + 1 : Nat) > 0 := by decide
  have g2 : (2 ^ 53 + 2 : Nat) > 2 ^ 53 + 1 := by decide
  have c1 : (0 : ℚ) + 2 ^ 53 = ((2 ^ 53 : Nat) : ℚ) := by norm_num
  have c2 : (2 ^ 53 : ℚ) + ((1 : Nat) : ℚ) = ((2 ^ 53 + 1 : Nat) : ℚ) := by norm_num
  have r3 : round53 (2 ^ 53) 1 = 2 ^ 53 := by
    have := round53_one_of_le (le_refl (2 ^ 53))
    simpa using this
  have r2 : round53 1 1 = ((1 : Nat) : ℚ) := round53_one_of_le (by norm_num)
  rw [jitterLoop, if_pos g1, e1, f64_natCast, round53_eval_a, c1, f64_natCast, r3]
  rw [jitterLoop, if_pos g2, e2, f64_natCast, r2, c2, f64_natCast, round53_eval_a]
  rfl

theorem CalculateInterarrivalAndJitter_of_some {ts d : List Nat} (hlen : 2 ≤ ts.length)
    (hd : interarrivalLoop ts = some d) :
    CalculateInterarrivalAndJitter ts =
      { interarrivals := some d,
        jitter := if d.length ≥ 2 then
          f64 (jitterLoop d 0 / f64 ((d.length - 1 : Nat) : ℚ)) else 0,
        err := none } := by
  simp [CalculateInterarrivalAndJitter, hd, Nat.not_lt.mpr hlen]

/-- C4 fails as stated.  For the timestamps `[0, 0, 2^53 + 1, 2^54 + 3]` the
interarrival times are `[0, 2^53 + 1, 2^53 + 2]`; the mean of the absolute
differences of adjacent interarrival times is `2^52 + 1`, itself a `float64`,
but the jitter returned is `2^52`: the conversion of `2^53 + 1` to `float64`
and the addition of 1 to `2^53` both round. -/
theorem jitter_rounding_counterexample :
    (CalculateInterarrivalAndJitter [0, 0, 2 ^ 53 + 1, 2 ^ 54 + 3]).interarrivals =
      some [0, 2 ^ 53 + 1, 2 ^ 53 + 2] ∧
    (CalculateInterarrivalAndJitter [0, 0, 2 ^ 53 + 1, 2 ^ 54 + 3]).err = none ∧
    (CalculateInterarrivalAndJitter [0, 0, 2 ^ 53 + 1, 2 ^ 54 + 3]).jitter = 2 ^ 52 ∧
    (∑ j in Finset.range ([0, 2 ^ 53 + 1, 2 ^ 53 + 2].length - 1),
        |(([0, 2 ^ 53 + 1, 2 ^ 53 + 2] : List Nat).getD (j + 1) 0 : ℚ) -
          (([0, 2 ^ 53 + 1, 2 ^ 53 + 2] : List Nat).getD j 0 : ℚ)|) /
      ((([0, 2 ^ 53 + 1, 2 ^ 53 + 2] : List Nat).length - 1 : Nat) : ℚ) = 2 ^ 52 + 1 := by
  have hI : interarrivalLoop [0, 0, 2 ^ 53 + 1, 2 ^ 54 + 3] =
      some [0, 2 ^ 53 + 1, 2 ^ 53 + 2] := by decide
  have r2 : round53 2 1 = ((2 : Nat) : ℚ) := round53_one_of_le (by norm_num)
  have c3 : (2 : ℚ) ^ 53 / ((2 : Nat) : ℚ) = ((2 ^ 52 : Nat) : ℚ) := by norm_num
  have r4 : round53 (2 ^ 52) 1 = ((2 ^ 52 : Nat) : ℚ) := round53_one_of_le (by norm_num)
  rw [CalculateInterarrivalAndJitter_of_some (by decide) hI]
  refine ⟨rfl, rfl, ?_, ?_⟩
  · have hj : (if ([0, 2 ^ 53 + 1, 2 ^ 53 + 2] : List Nat).length ≥ 2 then
          f64 (jitterLoop [0, 2 ^ 53 + 1, 2 ^ 53 + 2] 0 /
            f64 ((([0, 2 ^ 53 + 1, 2 ^ 53 + 2] : List Nat).length - 1 : Nat) : ℚ)) else 0) =
        f64 (jitterLoop [0, 2 ^ 53 + 1, 2 ^ 53 + 2] 0 / f64 ((2 : Nat) : ℚ)) := by
      rw [if_pos (by decide)]
      rfl
    show (if ([0, 2 ^ 53 + 1, 2 ^ 53 + 2] : List Nat).length ≥ 2 then
          f64 (jitterLoop [0, 2 ^ 53 + 1, 2 ^ 53 + 2] 0 /
            f64 ((([0, 2 ^ 53 + 1, 2 ^ 53 + 2] : List Nat).length - 1 : Nat) : ℚ)) else 0) = 2 ^ 52
    rw [hj, jitterLoop_eval, f64_natCast, r2, c3, f64_natCast, r4]
    norm_num
  · rw [← absDiffSum_eq_sum]
    norm_num [absDiffSum]

theorem interarrivalLoop_length (ts : List Nat) :
    ∀ d, interarrivalLoop ts = some d → d.length = ts.length - 1 := by
  induction ts with
  | nil => intro d hd; simp [interarrivalLoop] at hd; subst hd; rfl
  | cons a t ih =>
    cases t with
    | nil => intro d hd; simp [interarrivalLoop] at hd; subst hd; rfl
    | cons b rest =>
      intro d hd
      by_cases hba : b < a
      · simp [interarrivalLoop, hba] at hd
      · simp only [interarrivalLoop, hba, if_false, Option.map_eq_some'] at hd
        obtain ⟨d', hd', rfl⟩ := hd
        simp [ih d' hd']

/-- C4, amended. For at least two timestamps, each not below its predecessor,
with `d` the interarrival list and `n` its length: the call is not an error;
the jitter is 0 when `n = 1`; and when `n ≥ 2` and the sum `S` of the
`|d[j] - d[j-1]|` is at most `2 ^ 53`, the jitter is the `float64` quotient of
`S` by `float64(n - 1)`, which, for `n - 1` at most `2 ^ 53`, is within the
fraction `2 ^ (-53)` of `S / (n - 1)` and is `S / (n - 1)` itself when that is
an integer. -/
theorem CalculateInterarrivalAndJitter_jitter (ts : List Nat) (hlen : 2 ≤ ts.length)
    (hmono : ∀ i, i + 1 < ts.length → ts.getD i 0 ≤ ts.getD (i + 1) 0) :
    ∃ d : List Nat,
      (CalculateInterarrivalAndJitter ts).interarrivals = some d ∧
      (CalculateInterarrivalAndJitter ts).err = none ∧
      d.length = ts.length - 1 ∧
      (d.length = 1 → (CalculateInterarrivalAndJitter ts).jitter = 0) ∧
      (2 ≤ d.length →
        (∑ j in Finset.range (d.length - 1), |(d.getD (j + 1) 0 : ℚ) - (d.getD j 0 : ℚ)|)
          ≤ 2 ^ 53 →
        (CalculateInterarrivalAndJitter ts).jitter =
          f64 ((∑ j in Finset.range (d.length - 1),
              |(d.getD (j + 1) 0 : ℚ) - (d.getD j 0 : ℚ)|) /
            f64 ((d.length - 1 : Nat) : ℚ)) ∧
        (d.length - 1 ≤ 2 ^ 53 →
          |(CalculateInterarrivalAndJitter ts).jitter -
              (∑ j in Finset.range (d.length - 1),
                |(d.getD (j + 1) 0 : ℚ) - (d.getD j 0 : ℚ)|) / ((d.length - 1 : Nat) : ℚ)|
            ≤ (∑ j in Finset.range (d.length - 1),
                |(d.getD (j + 1) 0 : ℚ) - (d.getD j 0 : ℚ)|) / ((d.length - 1 : Nat) : ℚ)
              / 2 ^ 53 ∧
          ∀ Q : Nat,
            (∑ j in Finset.range (d.length - 1),
              |(d.getD (j + 1) 0 : ℚ) - (d.getD j 0 : ℚ)|)
              = (Q : ℚ) * ((d.length - 1 : Nat) : ℚ) →
            (CalculateInterarrivalAndJitter ts).jitter = Q)) := by
  have hsome : interarrivalLoop ts ≠ none := by
    rw [Ne, interarrivalLoop_eq_none_iff]
    rintro ⟨i, hi, hlt⟩
    exact absurd (hmono i hi) (Nat.not_le.mpr hlt)
  obtain ⟨d, hd⟩ := Option.ne_none_iff_exists'.mp hsome
  have hlt := interarrivalLoop_lt ts d hd
  rw [CalculateInterarrivalAndJitter_of_some hlen hd]
  refine ⟨d, rfl, rfl, interarrivalLoop_length ts d hd, ?_, ?_⟩
  · intro h1
    simp [h1]
  · intro h2 hS
    rw [← absDiffSum_eq_sum] at hS ⊢
    have hS' : absDiffSum d ≤ 2 ^ 53 := by exact_mod_cast hS
    have hloop : jitterLoop d 0 = (absDiffSum d : ℚ) := by
      have := jitterLoop_exact d 0 hlt (by omega)
      simpa using this
    have hj : (if d.length ≥ 2 then f64 (jitterLoop d 0 / f64 ((d.length - 1 : Nat) : ℚ))
        else 0) = f64 ((absDiffSum d : ℚ) / f64 ((d.length - 1 : Nat) : ℚ)) := by
      rw [if_pos h2, hloop]
    refine ⟨hj, ?_⟩
    intro hn
    show |(if d.length ≥ 2 then f64 (jitterLoop d 0 / f64 ((d.length - 1 : Nat) : ℚ))
        else 0) - (absDiffSum d : ℚ) / ((d.length - 1 : Nat) : ℚ)| ≤ _ ∧
      ∀ Q : Nat, _ →
        (if d.length ≥ 2 then f64 (jitterLoop d 0 / f64 ((d.length - 1 : Nat) : ℚ))
          else 0) = (Q : ℚ)
    rw [hj, f64_natCast_of_le hn]
    refine ⟨f64_rel_error_of_nonneg _ (by positivity), ?_⟩
    intro Q hQ
    have hpos : ((d.length - 1 : Nat) : ℚ) ≠ 0 := by
      have : d.length - 1 ≠ 0 := by omega
      exact_mod_cast this
    have hQle : Q ≤ 2 ^ 53 := by
      have h3 : absDiffSum d = Q * (d.length - 1) := by exact_mod_cast hQ
      have h4 : 1 ≤ d.length - 1 := by omega
      calc Q = Q * 1 := (Nat.mul_one Q).symm
        _ ≤ Q * (d.length - 1) := Nat.mul_le_mul_left Q h4
        _ = absDiffSum d := h3.symm
        _ ≤ 2 ^ 53 := hS'
    rw [hQ, mul_div_assoc, div_self hpos, mul_one, f64_natCast_of_le hQle]

/-- C4, amended, witness: `[100, 250, 300]` gives the interarrival times
`[150, 50]` and the jitter 100; `[5, 5]` gives `[0]` and the jitter 0. -/
theorem CalculateInterarrivalAndJitter_jitter_witness :
    ((CalculateInterarrivalAndJitter [100, 250, 300]).interarrivals = some [150, 50] ∧
      (CalculateInterarrivalAndJitter [100, 250, 300]).jitter = 100) ∧
    ((CalculateInterarrivalAndJitter [5, 5]).interarrivals = some [0] ∧
      (CalculateInterarrivalAndJitter [5, 5]).jitter = 0) := by
  constructor
  · obtain ⟨d, hd, -, -, -, h2⟩ := CalculateInterarrivalAndJitter_jitter [100, 250, 300]
      (by decide)
      (by
        intro i hi
        have hi2 : i < 2 := by
          simp only [List.length_cons, List.length_nil] at hi
          omega
        interval_cases i <;> decide)
    have hI : interarrivalLoop [100, 250, 300] = some [150, 50] := by decide
    have hd' : d = [150, 50] := by
      rw [CalculateInterarrivalAndJitter_of_some (by decide) hI] at hd
      exact (Option.some.inj hd).symm
    subst hd'
    refine ⟨hd, ?_⟩
    have hS : (∑ j in Finset.range (([150, 50] : List Nat).length - 1),
        |((([150, 50] : List Nat).getD (j + 1) 0 : Nat) : ℚ) -
          ((([150, 50] : List Nat).getD j 0 : Nat) : ℚ)|) = 100 := by
      rw [← absDiffSum_eq_sum]
      norm_num [absDiffSum]
    have := ((h2 (by decide) (by rw [hS]; norm_num)).2 (by decide)).2 100
      (by rw [hS]; norm_num)
    simpa using this
  · obtain ⟨d, hd, -, -, h1, -⟩ := CalculateInterarrivalAndJitter_jitter [5, 5]
      (by decide)
      (by
        intro i hi
        have hi2 : i < 1 := by
          simp only [List.length_cons, List.length_nil] at hi
          omega
        interval_cases i
        decide)
    have hI : interarrivalLoop [5, 5] = some [0] := by decide
    have hd' : d = [0] := by
      rw [CalculateInterarrivalAndJitter_of_some (by decide) hI] at hd
      exact (Option.some.inj hd).symm
    subst hd'
    exact ⟨hd, h1 rfl⟩

/-! ## C15: a marker outside the vocabulary -/

/-- A marker that satisfies none of the eight tests leaves the entry of the key
as it was. -/
theorem stepRecord_of_no_test {funcName : String}
    (h : ∀ s : Stage, s.isEnter funcName = false ∧ s.isExit funcName = false)
    (o : Option EventLog) (pid ts : Nat) (dev : String) :
    stepRecord o pid ts funcName dev = o := by
  have a1 := h Stage.read
  have a2 := h Stage.sendto
  have a3 := h Stage.canToAvtp
  have a4 := h Stage.avtpToCan
  simp only [Stage.isEnter, Stage.isExit] at a1 a2 a3 a4
  cases o with
  | none => simp [stepRecord, freshRecord, a1, a2, a3, a4]
  | some r =>
    simp [stepRecord, updateRecord, stepEnter, stepExit, Stage.isEnter, Stage.isExit,
      a1, a2, a3, a4]

/-- C15. For a marker that contains none of the eleven substrings `LogData`
looks for, `LogData` leaves the map unchanged; in particular an absent uid
stays absent. -/
theorem LogData_unknown_marker (m : LogMap) (uid pid ts : Nat) (funcName dev : String)
    (h1 : Contains funcName "sys_enter_read" = false)
    (h2 : Contains funcName "acfcan_tx" = false)
    (h3 : Contains funcName "sys_exit_read" = false)
    (h4 : Contains funcName "enter_forward_can_frame" = false)
    (h5 : Contains funcName "sys_enter_sendto" = false)
    (h6 : Contains funcName "sys_exit_sendto" = false)
    (h7 : Contains funcName "exit_forward_can_frame" = false)
    (h8 : Contains funcName "can_to_avtp_enter" = false)
    (h9 : Contains funcName "can_to_avtp_exit" = false)
    (h10 : Contains funcName "avtp_to_can_enter" = false)
    (h11 : Contains funcName "avtp_to_can_exit" = false) :
    LogData m uid pid ts funcName dev = m ∧
    (m uid = none → LogData m uid pid ts funcName dev uid = none) := by
  have hno : ∀ s : Stage, s.isEnter funcName = false ∧ s.isExit funcName = false := by
    intro s
    cases s <;>
      simp [Stage.isEnter, Stage.isExit, isEnterRead, isExitRead, isEnterSendto, isExitSendto,
        isEnterCanToAvtp, isExitCanToAvtp, isEnterAvtpToCan, isExitAvtpToCan,
        h1, h2, h3, h4, h5, h6, h7, h8, h9, h10, h11]
  have heq : LogData m uid pid ts funcName dev = m := by
    funext j
    rw [LogData_apply, stepRecord_of_no_test hno]
    by_cases hj : j = uid
    · simp [hj]
    · simp [hj]
  exact ⟨heq, fun hm => by rw [heq, hm]⟩

/-- C15, witness: the marker `tcp_sendmsg` on a map that holds a record for
uid 8 and none for uid 7. -/
theorem LogData_unknown_marker_witness :
    LogData (LogMap.empty.set 8 (EventLog.lit 43 "can1" 1000 0 0 0 0 0 0 0)) 7 42 1400
        "tcp_sendmsg" "can0" =
      LogMap.empty.set 8 (EventLog.lit 43 "can1" 1000 0 0 0 0 0 0 0) ∧
    (LogMap.empty.set 8 (EventLog.lit 43 "can1" 1000 0 0 0 0 0 0 0) 7 = none →
      LogData (LogMap.empty.set 8 (EventLog.lit 43 "can1" 1000 0 0 0 0 0 0 0)) 7 42 1400
        "tcp_sendmsg" "can0" 7 = none) :=
  LogData_unknown_marker (LogMap.empty.set 8 (EventLog.lit 43 "can1" 1000 0 0 0 0 0 0 0))
    7 42 1400 "tcp_sendmsg" "can0" (by decide) (by decide) (by decide) (by decide) (by decide)
    (by decide) (by decide) (by decide) (by decide) (by decide) (by decide)

/-! ## C16: pid and device of an existing record -/

/-- C16. On a map that holds a record for `uid`, a call of `LogData` for that
uid leaves the `Pid` and `Dev` of the record as they were, whatever pid and
device name the call carries. -/
theorem LogData_keeps_identity (m : LogMap) (uid pid ts : Nat) (funcName dev : String)
    (r : EventLog) (hm : m uid = some r) :
    ∃ r' : EventLog, LogData m uid pid ts funcName dev uid = some r' ∧
      r'.Pid = r.Pid ∧ r'.Dev = r.Dev := by
  refine ⟨updateRecord r ts funcName, ?_, (updateRecord_ident r ts funcName).1,
    (updateRecord_ident r ts funcName).2⟩
  rw [LogData_self, hm]
  rfl

/-- C16, witness: a record created with pid 42 on `can0` receives an exit
event that carries pid 99 and device `can1`. -/
theorem LogData_keeps_identity_witness :
    ∃ r' : EventLog,
      LogData (LogMap.empty.set 7 (EventLog.lit 42 "can0" 1000 0 0 0 0 0 0 0)) 7 99 1400
        "sys_exit_read" "can1" 7 = some r' ∧
      r'.Pid = (EventLog.lit 42 "can0" 1000 0 0 0 0 0 0 0).Pid ∧
      r'.Dev = (EventLog.lit 42 "can0" 1000 0 0 0 0 0 0 0).Dev :=
  LogData_keeps_identity (LogMap.empty.set 7 (EventLog.lit 42 "can0" 1000 0 0 0 0 0 0 0))
    7 99 1400 "sys_exit_read" "can1" (EventLog.lit 42 "can0" 1000 0 0 0 0 0 0 0) (by decide)

/-! ## C11: later calls and a computed duration -/

/-- C11 fails as stated.  After an enter at 1000 and an exit at 1400 the read
duration of uid 7 is 400; a second exit event at 1500 for the same uid sets it
to 500. -/
theorem duration_recomputed_counterexample :
    (applyCalls LogMap.empty
        [⟨7, 42, 1000, "sys_enter_read", "can0"⟩, ⟨7, 42, 1400, "sys_exit_read", "can0"⟩]
        7).map Stage.read.duration = some 400 ∧
    (applyCalls LogMap.empty
        [⟨7, 42, 1000, "sys_enter_read", "can0"⟩, ⟨7, 42, 1400, "sys_exit_read", "can0"⟩,
         ⟨7, 42, 1500, "sys_exit_read", "can0"⟩]
        7).map Stage.read.duration = some 500 := by
  decide

theorem applyCalls_duration_frame (s : Stage) (uid : Nat) (post : List Call) :
    ∀ (m : LogMap) (r0 : EventLog), m uid = some r0 →
      (∀ d ∈ post, d.uid = uid → s.isExit d.funcName = false) →
      ∃ r, applyCalls m post uid = some r ∧ s.duration r = s.duration r0 := by
  induction post with
  | nil => intro m r0 h0 _; exact ⟨r0, h0, rfl⟩
  | cons d post ih =>
    intro m r0 h0 hpost
    rw [applyCalls_cons]
    have hrest : ∀ e ∈ post, e.uid = uid → s.isExit e.funcName = false :=
      fun e he => hpost e (List.mem_cons_of_mem _ he)
    by_cases hd : d.uid = uid
    · have hx := hpost d (List.mem_cons_self _ _) hd
      have h1 : d.apply m uid = some (updateRecord r0 d.ts d.funcName) := by
        rw [← hd, Call.apply_self, hd, h0]
        rfl
      obtain ⟨r, hr, b⟩ := ih (d.apply m) _ h1 hrest
      refine ⟨r, hr, b.trans ?_⟩
      rw [(updateRecord_stage r0 d.ts d.funcName s).2.2]
      simp [hx]
    · have h1 : d.apply m uid = some r0 := by
        rw [Call.apply_other m d (Ne.symm hd), h0]
      exact ih (d.apply m) r0 h1 hrest

/-- C11, amended. For a record held under `uid` and a stage: every sequence of
later `LogData` calls in which no call for that uid satisfies the exit test of
the stage leaves the duration of the stage unchanged; a later call for that
uid that satisfies the exit test sets the exit timestamp to `ts` and, when the
enter timestamp is then non-zero, sets the duration again, to `ts` minus the
enter timestamp, and leaves it unchanged otherwise. -/
theorem duration_after_later_calls (s : Stage) (m : LogMap) (uid : Nat) (r : EventLog)
    (hm : m uid = some r) :
    (∀ post : List Call, (∀ d ∈ post, d.uid = uid → s.isExit d.funcName = false) →
      ∃ r' : EventLog, applyCalls m post uid = some r' ∧ s.duration r' = s.duration r) ∧
    (∀ (pid ts : Nat) (funcName dev : String), s.isExit funcName = true →
      ∃ r' : EventLog, LogData m uid pid ts funcName dev uid = some r' ∧
        s.exitTs r' = ts ∧
        s.duration r' =
          (if s.enterTs r' ≠ 0 then sub64 ts (s.enterTs r') else s.duration r)) := by
  constructor
  · intro post hpost
    exact applyCalls_duration_frame s uid post m r hm hpost
  · intro pid ts funcName dev hx
    refine ⟨updateRecord r ts funcName, ?_, ?_, ?_⟩
    · rw [LogData_self, hm]
      rfl
    · rw [(updateRecord_stage r ts funcName s).2.1, if_pos hx]
    · rw [(updateRecord_stage r ts funcName s).2.2]
      simp [hx]

/-- C11, amended, witness: on the record left by an enter at 1000 and an exit
at 1400, an enter event of the read stage and an event of another stage leave
the read duration at 400, and an exit at 1500 sets it to 500. -/
theorem duration_after_later_calls_witness :
    (∃ r' : EventLog,
      applyCalls (LogMap.empty.set 7
          ({ EventLog.lit 42 "can0" 1000 1400 0 0 0 0 0 0 with TimeReadingCANBus := 400 }))
        [⟨7, 42, 1450, "sys_enter_read", "can0"⟩, ⟨7, 42, 1460, "can_to_avtp_exit", "can0"⟩]
        7 = some r' ∧
      Stage.read.duration r' = Stage.read.duration
        ({ EventLog.lit 42 "can0" 1000 1400 0 0 0 0 0 0 with TimeReadingCANBus := 400 })) ∧
    (∃ r' : EventLog,
      LogData (LogMap.empty.set 7
          ({ EventLog.lit 42 "can0" 1000 1400 0 0 0 0 0 0 with TimeReadingCANBus := 400 }))
        7 42 1500 "sys_exit_read" "can0" 7 = some r' ∧
      Stage.read.exitTs r' = 1500 ∧
      Stage.read.duration r' =
        (if Stage.read.enterTs r' ≠ 0 then sub64 1500 (Stage.read.enterTs r')
         else Stage.read.duration
          ({ EventLog.lit 42 "can0" 1000 1400 0 0 0 0 0 0 with TimeReadingCANBus := 400 }))) :=
  ⟨(duration_after_later_calls Stage.read _ 7 _ (by decide)).1 _ (by decide),
   (duration_after_later_calls Stage.read _ 7 _ (by decide)).2 42 1500 "sys_exit_read" "can0"
     (by decide)⟩

/-! ## C12: the duration is a difference modulo `2 ^ 64` -/

/-- Each exit marker of the vocabulary satisfies the exit test of its stage and
not the enter test of that stage. -/
theorem exitMarkers_tests {funcName : String} {s : Stage} (h : (funcName, s) ∈ exitMarkers) :
    s.isExit funcName = true ∧ s.isEnter funcName = false := by
  simp only [exitMarkers, List.mem_cons, Prod.mk.injEq, List.mem_singleton,
    List.not_mem_nil, or_false] at h
  rcases h with ⟨rfl, rfl⟩ | ⟨rfl, rfl⟩ | ⟨rfl, rfl⟩ | ⟨rfl, rfl⟩ | ⟨rfl, rfl⟩ | ⟨rfl, rfl⟩ <;>
    simp [Stage.isExit, Stage.isEnter, tests_sys_exit_read, tests_enter_forward_can_frame,
      tests_sys_exit_sendto, tests_exit_forward_can_frame, tests_can_to_avtp_exit,
      tests_avtp_to_can_exit]

theorem sub64_of_lt {a b : Nat} (hab : a < b) : sub64 a b = 2 ^ 64 - (b - a) := by
  unfold sub64
  rw [show a + 2 ^ 64 - b = 2 ^ 64 - (b - a) by omega]
  exact Nat.mod_eq_of_lt (by omega)

theorem sub64_eq_emod {a b : Nat} (ha : a < 2 ^ 64) (hb : b < 2 ^ 64) :
    ((sub64 a b : Nat) : Int) = ((a : Int) - (b : Int)) % 2 ^ 64 := by
  rcases Nat.lt_or_ge a b with h | h
  · rw [sub64_of_lt h]
    omega
  · rw [sub64_of_le h ha]
    omega

/-- C12. For a record held under `uid` whose enter timestamp `e` for a stage is
non-zero, and an exit event of that stage at `ts` (one of the six exit markers
of the vocabulary, or any marker that satisfies the exit test of the stage and
not its enter test), the duration `LogData` stores is `(ts - e)` modulo
`2 ^ 64`: `ts - e` when `ts ≥ e`, and `2 ^ 64 - (e - ts)` when `ts < e`. -/
theorem LogData_exit_duration_wraps (m : LogMap) (uid pid ts : Nat) (funcName dev : String)
    (s : Stage) (r : EventLog) (hm : m uid = some r)
    (he : s.enterTs r ≠ 0) (heb : s.enterTs r < 2 ^ 64) (hts : ts < 2 ^ 64)
    (hf : (funcName, s) ∈ exitMarkers ∨
      (s.isExit funcName = true ∧ s.isEnter funcName = false)) :
    ∃ r' : EventLog, LogData m uid pid ts funcName dev uid = some r' ∧
      s.enterTs r' = s.enterTs r ∧ s.exitTs r' = ts ∧
      ((s.duration r' : Nat) : Int) = ((ts : Int) - (s.enterTs r : Int)) % 2 ^ 64 ∧
      (s.enterTs r ≤ ts → s.duration r' = ts - s.enterTs r) ∧
      (ts < s.enterTs r → s.duration r' = 2 ^ 64 - (s.enterTs r - ts)) := by
  obtain ⟨hx, hn⟩ : s.isExit funcName = true ∧ s.isEnter funcName = false := by
    rcases hf with h | h
    · exact exitMarkers_tests h
    · exact h
  obtain ⟨a1, a2, a3⟩ := updateRecord_stage r ts funcName s
  have e1 : s.enterTs (updateRecord r ts funcName) = s.enterTs r := by
    rw [a1]
    simp [hn]
  have e3 : s.duration (updateRecord r ts funcName) = sub64 ts (s.enterTs r) := by
    rw [a3, e1, if_pos ⟨hx, he⟩]
  refine ⟨updateRecord r ts funcName, ?_, e1, ?_, ?_, ?_, ?_⟩
  · rw [LogData_self, hm]
    rfl
  · rw [a2, if_pos hx]
  · rw [e3]
    exact sub64_eq_emod hts heb
  · intro hle
    rw [e3]
    exact sub64_of_le hle hts
  · intro hlt
    rw [e3]
    exact sub64_of_lt hlt

/-- C12, witness: a read stage entered at 1400 receives its exit event with
timestamp 1000; the duration stored is `2 ^ 64 - 400`. -/
theorem LogData_exit_duration_wraps_witness :
    ∃ r' : EventLog,
      LogData (LogMap.empty.set 7 (EventLog.lit 42 "can0" 1400 0 0 0 0 0 0 0)) 7 42 1000
        "sys_exit_read" "can0" 7 = some r' ∧
      Stage.read.enterTs r' = Stage.read.enterTs (EventLog.lit 42 "can0" 1400 0 0 0 0 0 0 0) ∧
      Stage.read.exitTs r' = 1000 ∧
      ((Stage.read.duration r' : Nat) : Int) =
        (((1000 : Nat) : Int) -
          (Stage.read.enterTs (EventLog.lit 42 "can0" 1400 0 0 0 0 0 0 0) : Int)) % 2 ^ 64 ∧
      (Stage.read.enterTs (EventLog.lit 42 "can0" 1400 0 0 0 0 0 0 0) ≤ 1000 →
        Stage.read.duration r' =
          1000 - Stage.read.enterTs (EventLog.lit 42 "can0" 1400 0 0 0 0 0 0 0)) ∧
      (1000 < Stage.read.enterTs (EventLog.lit 42 "can0" 1400 0 0 0 0 0 0 0) →
        Stage.read.duration r' =
          2 ^ 64 - (Stage.read.enterTs (EventLog.lit 42 "can0" 1400 0 0 0 0 0 0 0) - 1000)) :=
  LogData_exit_duration_wraps (LogMap.empty.set 7 (EventLog.lit 42 "can0" 1400 0 0 0 0 0 0 0))
    7 42 1000 "sys_exit_read" "can0" Stage.read (EventLog.lit 42 "can0" 1400 0 0 0 0 0 0 0)
    (by decide) (by decide) (by decide) (by decide) (Or.inl (by decide))

/-! ## C13: a non-zero duration has both its timestamps -/

/-- One call with a non-zero timestamp keeps the property that a non-zero
duration comes with two non-zero timestamps. -/
theorem stepRecord_duration_inv {ts : Nat} (hts : ts ≠ 0) (s : Stage) (o : Option EventLog)
    (ho : ∀ r, o = some r → s.duration r ≠ 0 → s.enterTs r ≠ 0 ∧ s.exitTs r ≠ 0)
    (pid : Nat) (funcName dev : String) {r' : EventLog}
    (hr : stepRecord o pid ts funcName dev = some r') (hd : s.duration r' ≠ 0) :
    s.enterTs r' ≠ 0 ∧ s.exitTs r' ≠ 0 := by
  cases o with
  | none => exact absurd (freshRecord_stage hr s).2.2.1 hd
  | some r =>
    simp only [stepRecord, Option.some.injEq] at hr
    subst hr
    obtain ⟨a1, a2, a3⟩ := updateRecord_stage r ts funcName s
    by_cases hx : s.isExit funcName = true ∧ s.enterTs (updateRecord r ts funcName) ≠ 0
    · exact ⟨hx.2, by rw [a2, if_pos hx.1]; exact hts⟩
    · rw [a3, if_neg hx] at hd
      obtain ⟨b1, b2⟩ := ho r rfl hd
      constructor
      · rw [a1]
        split_ifs
        · exact hts
        · exact b1
      · rw [a2]
        split_ifs
        · exact hts
        · exact b2

theorem applyCalls_duration_inv (s : Stage) (cs : List Call) :
    ∀ m : LogMap,
      (∀ u r, m u = some r → s.duration r ≠ 0 → s.enterTs r ≠ 0 ∧ s.exitTs r ≠ 0) →
      (∀ c ∈ cs, c.ts ≠ 0) →
      ∀ u r, applyCalls m cs u = some r → s.duration r ≠ 0 →
        s.enterTs r ≠ 0 ∧ s.exitTs r ≠ 0 := by
  induction cs with
  | nil => intro m hm _ u r hr hd; exact hm u r hr hd
  | cons c cs ih =>
    intro m hm hts
    rw [applyCalls_cons]
    refine ih (c.apply m) ?_ (fun e he => hts e (List.mem_cons_of_mem _ he))
    intro u r hr hd
    by_cases hu : u = c.uid
    · subst hu
      rw [Call.apply_self] at hr
      exact stepRecord_duration_inv (hts c (List.mem_cons_self _ _)) s (m c.uid)
        (fun r0 h0 => hm c.uid r0 h0) c.pid c.funcName c.dev hr hd
    · rw [Call.apply_other m c hu] at hr
      exact hm u r hr hd

/-- C13. In every record of every map reached from the empty map by `LogData`
calls whose timestamps are all non-zero, and for each stage: if the duration
of the stage is non-zero then its enter timestamp and its exit timestamp are
both non-zero. -/
theorem duration_nonzero_of_reachable (cs : List Call) (hts : ∀ c ∈ cs, c.ts ≠ 0)
    (uid : Nat) (r : EventLog) (s : Stage)
    (hr : applyCalls LogMap.empty cs uid = some r) (hd : s.duration r ≠ 0) :
    s.enterTs r ≠ 0 ∧ s.exitTs r ≠ 0 :=
  applyCalls_duration_inv s cs LogMap.empty
    (fun u r0 h0 => by simp [LogMap.empty] at h0) hts uid r hr hd

/-- C13, witness: enter at 1000 and exit at 1400 for uid 7. -/
theorem duration_nonzero_of_reachable_witness :
    Stage.read.enterTs ({ EventLog.lit 42 "can0" 1000 1400 0 0 0 0 0 0 with
        TimeReadingCANBus := 400 }) ≠ 0 ∧
    Stage.read.exitTs ({ EventLog.lit 42 "can0" 1000 1400 0 0 0 0 0 0 with
        TimeReadingCANBus := 400 }) ≠ 0 :=
  duration_nonzero_of_reachable
    [⟨7, 42, 1000, "sys_enter_read", "can0"⟩, ⟨7, 42, 1400, "sys_exit_read", "can0"⟩]
    (by decide) 7
    ({ EventLog.lit 42 "can0" 1000 1400 0 0 0 0 0 0 with TimeReadingCANBus := 400 })
    Stage.read (by decide) (by decide)

/-! ## C17: the interarrival times add up to the timestamps -/

theorem foldl_add_mod (l : List Nat) :
    ∀ s0 : Nat, s0 + l.sum < 2 ^ 64 →
      l.foldl (fun sum value => (sum + value) % 2 ^ 64) s0 = s0 + l.sum := by
  induction l with
  | nil => intro s0 _; simp
  | cons a t ih =>
    intro s0 h
    simp only [List.sum_cons] at h
    simp only [List.foldl_cons, List.sum_cons]
    rw [Nat.mod_eq_of_lt (by omega), ih (s0 + a) (by omega)]
    omega

theorem sumArray_eq_sum {l : List Nat} (h : l.sum < 2 ^ 64) : sumArray l = l.sum := by
  unfold sumArray
  rw [foldl_add_mod l 0 (by omega)]
  omega

/-- From the first timestamp, the first `k` interarrival times lead to the
timestamp of index `k`. -/
theorem interarrivalLoop_telescope (ts : List Nat) :
    ∀ d, interarrivalLoop ts = some d → (∀ x ∈ ts, x < 2 ^ 64) →
      ∀ k, k ≤ d.length → ts.getD 0 0 + (d.take k).sum = ts.getD k 0 := by
  induction ts with
  | nil =>
    intro d hd _ k hk
    simp [interarrivalLoop] at hd
    subst hd
    simp at hk
    subst hk
    simp
  | cons a t ih =>
    cases t with
    | nil =>
      intro d hd _ k hk
      simp [interarrivalLoop] at hd
      subst hd
      simp at hk
      subst hk
      simp
    | cons b rest =>
      intro d hd hb k hk
      by_cases hba : b < a
      · simp [interarrivalLoop, hba] at hd
      · simp only [interarrivalLoop, hba, if_false, Option.map_eq_some'] at hd
        obtain ⟨d', hd', rfl⟩ := hd
        have hab : a ≤ b := Nat.not_lt.mp hba
        have hsub : sub64 b a = b - a := sub64_of_le hab (hb b (by simp))
        cases k with
        | zero => simp
        | succ j =>
          have hj : j ≤ d'.length := by simpa using hk
          have h := ih d' hd' (fun x hx => hb x (List.mem_cons_of_mem _ hx)) j hj
          simp only [List.getD_cons_zero, List.getD_cons_succ, List.take_succ_cons,
            List.sum_cons, hsub] at h ⊢
          omega

theorem interarrivals_eq_some {ts d : List Nat}
    (hd : (CalculateInterarrivalAndJitter ts).interarrivals = some d) :
    2 ≤ ts.length ∧ interarrivalLoop ts = some d := by
  by_cases hlen : ts.length < 2
  · simp [CalculateInterarrivalAndJitter, hlen] at hd
  · cases hl : interarrivalLoop ts with
    | none => simp [CalculateInterarrivalAndJitter, hlen, hl] at hd
    | some d' =>
      simp [CalculateInterarrivalAndJitter, hlen, hl] at hd
      exact ⟨Nat.not_lt.mp hlen, by rw [hd]⟩

theorem getD_lt_of_bound {ts : List Nat} (hb : ∀ x ∈ ts, x < 2 ^ 64) {k : Nat}
    (hk : k < ts.length) : ts.getD k 0 < 2 ^ 64 := by
  rw [List.getD_eq_getElem ts 0 hk]
  exact hb _ (List.getElem_mem hk)

/-- C17. When `CalculateInterarrivalAndJitter` returns the interarrival list
`d` for `ts`, which it does exactly when it returns no error: for every `k ≤ len(d)` the `uint64` sum of the first `k`
elements of `d`, as `sumArray` computes it, does not wrap, and `ts[0]` plus
that sum is `ts[k]`, below `2 ^ 64`; and the sum of all of `d` is the last
timestamp minus the first. -/
theorem interarrivals_recover_timestamps (ts d : List Nat) (hb : ∀ x ∈ ts, x < 2 ^ 64)
    (hd : (CalculateInterarrivalAndJitter ts).interarrivals = some d) :
    (CalculateInterarrivalAndJitter ts).err = none ∧
    (∀ k, k ≤ d.length →
      sumArray (d.take k) = (d.take k).sum ∧
      ts.getD 0 0 + sumArray (d.take k) = ts.getD k 0 ∧
      ts.getD 0 0 + sumArray (d.take k) < 2 ^ 64) ∧
    ts.getD 0 0 ≤ ts.getD (ts.length - 1) 0 ∧
    sumArray d = ts.getD (ts.length - 1) 0 - ts.getD 0 0 := by
  obtain ⟨hlen, hl⟩ := interarrivals_eq_some hd
  have hdl := interarrivalLoop_length ts d hl
  have htel := interarrivalLoop_telescope ts d hl hb
  have hpart : ∀ k, k ≤ d.length →
      sumArray (d.take k) = (d.take k).sum ∧
      ts.getD 0 0 + sumArray (d.take k) = ts.getD k 0 ∧
      ts.getD 0 0 + sumArray (d.take k) < 2 ^ 64 := by
    intro k hk
    have h1 := htel k hk
    have h2 : ts.getD k 0 < 2 ^ 64 := getD_lt_of_bound hb (by omega)
    have h3 : sumArray (d.take k) = (d.take k).sum := sumArray_eq_sum (by omega)
    exact ⟨h3, by rw [h3]; exact h1, by rw [h3, h1]; exact h2⟩
  refine ⟨?_, hpart, ?_, ?_⟩
  · rw [CalculateInterarrivalAndJitter_of_some hlen hl]
  · have h := htel d.length (le_refl _)
    rw [hdl] at h
    omega
  · obtain ⟨-, h2, -⟩ := hpart d.length (le_refl _)
    rw [List.take_length, hdl] at h2
    omega

/-- C17, witness: `[100, 250, 300]`, whose interarrival times are `[150, 50]`. -/
theorem interarrivals_recover_timestamps_witness :
    (CalculateInterarrivalAndJitter [100, 250, 300]).err = none ∧
    (∀ k, k ≤ [150, 50].length →
      sumArray ([150, 50].take k) = ([150, 50].take k).sum ∧
      [100, 250, 300].getD 0 0 + sumArray ([150, 50].take k) = [100, 250, 300].getD k 0 ∧
      [100, 250, 300].getD 0 0 + sumArray ([150, 50].take k) < 2 ^ 64) ∧
    [100, 250, 300].getD 0 0 ≤ [100, 250, 300].getD ([100, 250, 300].length - 1) 0 ∧
    sumArray [150, 50] =
      [100, 250, 300].getD ([100, 250, 300].length - 1) 0 - [100, 250, 300].getD 0 0 :=
  interarrivals_recover_timestamps [100, 250, 300] [150, 50] (by decide)
    (by
      rw [CalculateInterarrivalAndJitter_of_some (by decide)
        (show interarrivalLoop [100, 250, 300] = some [150, 50] by decide)])

/-! ## C14: the text of a name field -/

theorem nameText_data (f : List Char) :
    (nameText f).data = f.rdropWhile (fun c => c == zeroByte) := by
  have hp : (fun c : Char => ("\x00" : String).data.contains c) = fun c => c == zeroByte := by
    funext c
    have : ("\x00" : String).data = [zeroByte] := by decide
    rw [this, Bool.eq_iff_iff]
    simp
  simp only [nameText, TrimRight, hp]

theorem rdropWhile_append_replicate (p : List Char) (hp : p.getLast? ≠ some zeroByte) :
    ∀ k : Nat, (p ++ List.replicate k zeroByte).rdropWhile (fun c => c == zeroByte) = p := by
  intro k
  induction k with
  | zero =>
    simp only [List.replicate_zero, List.append_nil]
    rw [List.rdropWhile_eq_self_iff]
    intro hne
    rw [List.getLast?_eq_getLast _ hne] at hp
    simpa using hp
  | succ k ih =>
    rw [List.replicate_succ', ← List.append_assoc, List.rdropWhile_concat_pos _ _ _ (by simp)]
    exact ih

theorem rdropWhile_append_rest (f : List Char) :
    ∃ k : Nat, f = f.rdropWhile (fun c => c == zeroByte) ++ List.replicate k zeroByte := by
  refine ⟨(f.reverse.takeWhile (fun c => c == zeroByte)).length, ?_⟩
  have h1 : f.reverse.takeWhile (fun c => c == zeroByte) =
      List.replicate (f.reverse.takeWhile (fun c => c == zeroByte)).length zeroByte := by
    rw [List.eq_replicate_iff]
    refine ⟨rfl, fun b hb => ?_⟩
    simpa using List.mem_takeWhile_imp hb
  have h2 := List.takeWhile_append_dropWhile (fun c => c == zeroByte) f.reverse
  have h3 : f = (f.reverse.dropWhile (fun c => c == zeroByte)).reverse ++
      (f.reverse.takeWhile (fun c => c == zeroByte)).reverse := by
    rw [← List.reverse_append, h2, List.reverse_reverse]
  rw [h1, List.reverse_replicate] at h3
  exact h3

theorem rdropWhile_getLast_ne (f : List Char) :
    (f.rdropWhile (fun c => c == zeroByte)).getLast? ≠ some zeroByte := by
  intro h
  have hne : f.rdropWhile (fun c => c == zeroByte) ≠ [] := by
    intro h0
    rw [h0] at h
    simp at h
  have := List.rdropWhile_last_not (fun c => c == zeroByte) f hne
  rw [List.getLast?_eq_getLast _ hne, Option.some.injEq] at h
  rw [h] at this
  simp at this

/-- C14. The text derived from a name field `f` is the one prefix `p` of `f`
that does not end in a zero byte and after which `f` holds zero bytes only;
hence trimming the text again changes nothing, a field of zero bytes gives the
empty text, and zero bytes that a non-zero byte follows stay in the text.
The statement holds for a field of any length, 32 included. -/
theorem nameText_spec (f : List Char) :
    (∃ k : Nat, f = (nameText f).data ++ List.replicate k zeroByte) ∧
    (nameText f).data.getLast? ≠ some zeroByte ∧
    (∀ (p : List Char) (k : Nat), f = p ++ List.replicate k zeroByte →
      p.getLast? ≠ some zeroByte → p = (nameText f).data) ∧
    TrimRight (nameText f) "\x00" = nameText f ∧
    ((∀ c ∈ f, c = zeroByte) → nameText f = "") ∧
    (∀ (a : List Char) (c : Char) (k : Nat), c ≠ zeroByte →
      f = a ++ c :: List.replicate k zeroByte → (nameText f).data = a ++ [c]) := by
  have huniq : ∀ (p : List Char) (k : Nat), f = p ++ List.replicate k zeroByte →
      p.getLast? ≠ some zeroByte → p = (nameText f).data := by
    intro p k hf hp
    rw [nameText_data, hf, rdropWhile_append_replicate p hp k]
  refine ⟨?_, ?_, huniq, ?_, ?_, ?_⟩
  · rw [nameText_data]
    exact rdropWhile_append_rest f
  · rw [nameText_data]
    exact rdropWhile_getLast_ne f
  · have h : TrimRight (nameText f) "\x00" = nameText (nameText f).data := rfl
    rw [h]
    apply String.ext
    rw [nameText_data, nameText_data, List.rdropWhile_idempotent]
  · intro hall
    apply String.ext
    rw [nameText_data, List.rdropWhile_eq_nil_iff.mpr]
    intro x hx
    simpa using hall x hx
  · intro a c k hc hf
    have hlast : (a ++ [c]).getLast? ≠ some zeroByte := by
      simp [hc]
    have hf' : f = (a ++ [c]) ++ List.replicate k zeroByte := by
      rw [hf]
      simp
    exact (huniq (a ++ [c]) k hf' hlast).symm

/-- The 32-byte field that holds `can0` gives the text `can0`; the field that
holds `a`, a zero byte and `b` gives the three-byte text with the zero byte in
the middle; the field of 32 zero bytes gives the empty text. -/
theorem nameText_examples :
    nameText ("can0".data ++ List.replicate 28 zeroByte) = "can0" ∧
    (nameText (['a', zeroByte, 'b'] ++ List.replicate 29 zeroByte)).data =
      ['a', zeroByte, 'b'] ∧
    nameText (List.replicate 32 zeroByte) = "" := by
  decide

/-- C14, witness: the 32-byte field that holds `can` and `0` followed by 28
zero bytes gives the text `can0`. -/
theorem nameText_spec_witness :
    (nameText ("can0".data ++ List.replicate 28 zeroByte)).data = ['c', 'a', 'n'] ++ ['0'] :=
  (nameText_spec ("can0".data ++ List.replicate 28 zeroByte)).2.2.2.2.2
    ['c', 'a', 'n'] '0' 28 (by decide) (by decide)

end Open1722
